import Mathlib

/-!
# tss-lib: Feldman VSS, Schnorr proofs and the regroup party

A shallow embedding of `crypto/vss/feldman_vss.go`,
`crypto/schnorr/schnorr_proof.go` and `ecdsa/regroup/local_party.go`.

* Go `*big.Int` values are `Int`; a pointer that may be `nil` is an `Option`.
* Go `int` values (thresholds, lengths) are `Int`.
* A run of a Go function ends in a returned value, a returned error, or a
  runtime panic (index out of range, nil dereference): `Result`. Functions
  without an error result return `Option`, where `none` is the panic.
* The elliptic curve (`EC()` / `tss.EC()`, Go's `elliptic.Curve`) and the
  transcript hash are parameters: `Curve` and `Hash`. Their algebraic
  contract is `Curve.Lawful` / `Hash.Lawful`; `toyCurve`, the curve
  `y² = x³ + 7` over `F_67` (79 points), is a concrete lawful instance.
* The random sampler is a parameter: `rnd i` is the value drawn for
  coefficient `i`, and the Schnorr nonces are explicit arguments.
-/

set_option linter.dupNamespace false
set_option linter.unusedVariables false
set_option maxRecDepth 100000

namespace TssLib

/-! ## Outcomes -/

/-- Outcome of a Go function with an `error` result: a value, a returned
error (with its message), or a runtime panic. -/
inductive Result (α : Type) where
  | ok (val : α)
  | err (msg : String)
  | panic
deriving DecidableEq, Repr

/-- The package-level error value `ErrNumSharesBelowThreshold`. -/
def ErrNumSharesBelowThreshold : String := "not enough shares to satisfy the threshold"

/-! ## math/big -/

/-- Go `(*big.Int).Bytes()`: the big-endian bytes of the absolute value, read
back by the curve as a natural number. The sign is dropped. -/
def Bytes (k : Int) : Nat := k.natAbs

/-- Go `(*big.Int).ModInverse(g, n)`: a negative `n` is replaced by `-n`, a
negative `g` by `g mod n`; when `gcd(g, n) ≠ 1` the result is `nil` (`none`),
otherwise it is the inverse of `g` in the range `0 ≤ z < |n|`. -/
def ModInverse (g n : Int) : Option Int :=
  let n := |n|
  let g := if g < 0 then g % n else g
  if Int.gcd g n = 1 then some (Int.gcdA g n % n) else none

/-- Modelled from the spec: `common.ModInt(q).Add(x, y)` of the `common`
package, `x + y mod q` (the Euclidean remainder of `big.Int.Mod`). -/
def ModInt.Add (q x y : Int) : Int := (x + y) % q

/-! ## The curve -/

/-- A curve point as the pair of its affine coordinates `(X, Y)`. -/
abbrev Point := Int × Int

/-- The operations of Go's `elliptic.Curve` that the code calls, with the
scalar of `ScalarMult` / `ScalarBaseMult` given as the number its bytes
encode. -/
structure Curve where
  N : Nat
  Gx : Int
  Gy : Int
  Add : Point → Point → Point
  ScalarMult : Point → Nat → Point
  ScalarBaseMult : Nat → Point
  IsOnCurve : Point → Bool

/-- The algebraic contract of a prime-order curve such as secp256k1: the
multiples of the base point form a group of prime order `N` under `Add`, the
on-curve points are the multiples other than the identity, and `ScalarMult`
of an on-curve point is the scalar multiple in that group. -/
structure Curve.Lawful (E : Curve) : Prop where
  prime : Nat.Prime E.N
  base_one : E.ScalarBaseMult 1 = (E.Gx, E.Gy)
  base_add : ∀ a b, E.Add (E.ScalarBaseMult a) (E.ScalarBaseMult b) = E.ScalarBaseMult (a + b)
  base_mul : ∀ a k, E.ScalarMult (E.ScalarBaseMult a) k = E.ScalarBaseMult (a * k)
  base_eq : ∀ a b, E.ScalarBaseMult a = E.ScalarBaseMult b ↔ a % E.N = b % E.N
  base_on : ∀ k, E.IsOnCurve (E.ScalarBaseMult k) = true ↔ k % E.N ≠ 0
  on_base : ∀ P, E.IsOnCurve P = true → ∃ r, ∀ k, E.ScalarMult P k = E.ScalarBaseMult (r * k)

/-- Modelled from the spec: `crypto.ScalarBaseMult(curve, k)` of the `crypto`
package, which returns `k·G` by passing `k.Bytes()` to the curve. -/
def ECPoint.ScalarBaseMult (E : Curve) (k : Int) : Point := E.ScalarBaseMult (Bytes k)

/-- Modelled from the spec: `(*ECPoint).ScalarMult(k)` of the `crypto`
package, which returns `k·P` by passing `k.Bytes()` to the curve. -/
def ECPoint.ScalarMult (E : Curve) (P : Point) (k : Int) : Point := E.ScalarMult P (Bytes k)

/-- Modelled from the spec: `(*ECPoint).Add` of the `crypto` package, the
group addition of the curve. -/
def ECPoint.Add (E : Curve) (P Q : Point) : Point := E.Add P Q

/-- Modelled from the spec: `(*ECPoint).ValidateBasic()` of the `crypto`
package: non-nil coordinates and on-curve membership. -/
def ECPoint.ValidateBasic (E : Curve) (P : Point) : Bool := E.IsOnCurve P

/-! ## Transcript hash -/

/-- The two functions of the `common` package that derive the Fiat–Shamir
challenge: the hash of a list of integers and the rejection sampler. -/
structure Hash where
  SHA512_256i : List Int → Int
  RejectionSample : Int → Int → Int

/-- The contract of the sampler: for a positive modulus `q` it maps every digest into
`[0, q)`. -/
structure Hash.Lawful (H : Hash) : Prop where
  sample_range : ∀ q h, 0 < q → 0 ≤ H.RejectionSample q h ∧ H.RejectionSample q h < q

/-! ## Feldman VSS (`crypto/vss/feldman_vss.go`) -/

structure Params where
  Threshold : Int
  NumShares : Int
deriving DecidableEq, Repr

structure Share where
  Threshold : Int
  ID : Int
  Share : Int
deriving DecidableEq, Repr

structure PolyGs where
  Params : Params
  PolyG : List Point
deriving DecidableEq, Repr

/-- The function `samplePolynomial`: `make` panics on a negative length and `poly[0]` on an
empty slice; coefficient `i ≥ 1` is the value `rnd i` drawn for it. -/
def samplePolynomial (rnd : Nat → Int) (threshold : Int) (secret : Int) : Option (List Int) :=
  if threshold ≤ 0 then none
  else some (secret :: (List.range (threshold.toNat - 1)).map (fun k => rnd (k + 1)))

/-- The function `evaluatePolynomial`: Horner evaluation from the last coefficient down,
reduced modulo `N` once at the end; `poly[last]` panics on an empty slice. -/
def evaluatePolynomial (E : Curve) (poly : List Int) (value : Int) : Option Int :=
  match poly.reverse with
  | [] => none
  | last :: rest => some (rest.foldl (fun result ai => result * value + ai) last % (E.N : Int))

/-- The function `Create`. -/
def Create (E : Curve) (rnd : Nat → Int) (threshold : Int) (secret : Option Int)
    (indexes : Option (List Int)) : Result (PolyGs × List Share) :=
  match secret, indexes with
  | some secret, some indexes =>
    let num : Int := indexes.length
    if num < threshold then Result.err ErrNumSharesBelowThreshold
    else
      match samplePolynomial rnd threshold secret with
      | none => Result.panic
      | some poly =>
        let poly := poly.set 0 secret
        let polyGs := poly.map (fun ai => E.ScalarBaseMult (Bytes ai))
        let params : Params := ⟨threshold, num⟩
        let pGs : PolyGs := ⟨params, polyGs⟩
        match indexes.mapM (fun id =>
            (evaluatePolynomial E poly id).map (fun share => Share.mk threshold id share)) with
        | none => Result.panic
        | some shares => Result.ok (pGs, shares)
  | _, _ => Result.err "vss secret or indexes == nil"

/-- One iteration of the loop of `Share.Verify`: add `kj·V_i` to the
accumulator and advance `kj` to `kj·ID mod N`; `polyGs[i]` panics past the
end. -/
def verifyStep (E : Curve) (polyGs : List Point) (id : Int) (st : Point × Int) (i : Nat) :
    Option (Point × Int) :=
  match polyGs[i]? with
  | none => none
  | some Vi => some (E.Add st.1 (E.ScalarMult Vi (Bytes st.2)), (st.2 * id) % (E.N : Int))

/-- The method `Share.Verify`. -/
def Share.Verify (E : Curve) (share : TssLib.Share) (threshold : Int) (polyGs : List Point) :
    Option Bool :=
  if share.Threshold ≠ threshold then some false
  else
    match polyGs[0]? with
    | none => none
    | some v0 =>
      match (List.range' 1 (threshold.toNat - 1)).foldlM (verifyStep E polyGs share.ID)
          (v0, share.ID) with
      | none => none
      | some st => some (decide (st.1 = E.ScalarBaseMult (Bytes share.Share)))

/-- One iteration of the inner loop of `ReConstruct` for the share with index
`i` and id `id`: multiplying by a `nil` inverse panics. -/
def timesStep (E : Curve) (xs : List Int) (i : Nat) (id : Int) (times : Int) (j : Nat) :
    Option Int :=
  if j ≠ i then
    match xs[j]? with
    | none => none
    | some xj =>
      match ModInverse (xj - id) (E.N : Int) with
      | none => none
      | some subInv => some ((times * (xj * subInv)) % (E.N : Int))
  else some times

/-- One iteration of the outer loop of `ReConstruct`. -/
def secretStep (E : Curve) (xs : List Int) (secret : Int) (ish : Nat × Share) : Option Int :=
  match (List.range xs.length).foldlM (timesStep E xs ish.1 ish.2.ID) 1 with
  | none => none
  | some times => some ((secret + ish.2.Share * times) % (E.N : Int))

/-- The method `Shares.ReConstruct`; a `nil` slice is `none`. -/
def ReConstruct (E : Curve) (shares : Option (List Share)) : Result Int :=
  let body (l : List Share) : Result Int :=
    let xs := l.map (fun share => share.ID)
    match l.enum.foldlM (secretStep E xs) 0 with
    | none => Result.panic
    | some secret => Result.ok secret
  match shares with
  | none => body []
  | some [] => Result.panic
  | some (s0 :: rest) =>
    if s0.Threshold > ((s0 :: rest).length : Int) then Result.err ErrNumSharesBelowThreshold
    else body (s0 :: rest)

/-! ## Schnorr proofs (`crypto/schnorr/schnorr_proof.go`) -/

structure ZKProof where
  Alpha : Option Point
  T : Option Int
deriving DecidableEq, Repr

structure ZKVProof where
  Alpha : Option Point
  T : Option Int
  U : Option Int
deriving DecidableEq, Repr

/-- The challenge `c` of a transcript: the rejection sample of its hash. -/
def challenge (E : Curve) (H : Hash) (transcript : List Int) : Int :=
  H.RejectionSample (E.N : Int) (H.SHA512_256i transcript)

/-- The function `NewZKProof`; `a` is the sampled nonce. -/
def NewZKProof (E : Curve) (H : Hash) (a : Int) (x : Option Int) (X : Option Point) :
    Result ZKProof :=
  match x, X with
  | some x, some X =>
    if !ECPoint.ValidateBasic E X then
      Result.err "ZKProof constructor received nil or invalid value(s)"
    else
      let q : Int := E.N
      let g : Point := (E.Gx, E.Gy)
      let alpha := ECPoint.ScalarBaseMult E a
      let c := challenge E H [X.1, X.2, g.1, g.2, alpha.1, alpha.2]
      let t := c * x
      let t := ModInt.Add q a t
      Result.ok ⟨some alpha, some t⟩
  | _, _ => Result.err "ZKProof constructor received nil or invalid value(s)"

/-- The method `ZKProof.ValidateBasic`. -/
def ZKProof.ValidateBasic (pf : ZKProof) : Bool := pf.T.isSome && pf.Alpha.isSome

/-- The method `ZKProof.Verify`; reading the coordinates of a `nil` point panics. -/
def ZKProof.Verify (E : Curve) (H : Hash) (pf : Option ZKProof) (X : Option Point) :
    Option Bool :=
  match pf with
  | none => some false
  | some pf =>
    if !pf.ValidateBasic then some false
    else
      match pf.Alpha, pf.T, X with
      | some Alpha, some T, some X =>
        let g : Point := (E.Gx, E.Gy)
        let c := challenge E H [X.1, X.2, g.1, g.2, Alpha.1, Alpha.2]
        let tG := ECPoint.ScalarBaseMult E T
        let Xc := ECPoint.ScalarMult E X c
        let aXc := ECPoint.Add E Alpha Xc
        if aXc.1 ≠ tG.1 ∨ aXc.2 ≠ tG.2 then some false else some true
      | _, _, _ => none

/-- The function `NewZKVProof`; `a` and `b` are the sampled nonces. -/
def NewZKVProof (E : Curve) (H : Hash) (a b : Int) (V R : Option Point) (s l : Option Int) :
    Result ZKVProof :=
  match V, R, s, l with
  | some V, some R, some s, some l =>
    if !ECPoint.ValidateBasic E V || !ECPoint.ValidateBasic E R then
      Result.err "ZKVProof constructor received nil value(s)"
    else
      let q : Int := E.N
      let g : Point := (E.Gx, E.Gy)
      let aR := ECPoint.ScalarMult E R a
      let bG := ECPoint.ScalarBaseMult E b
      let alpha := ECPoint.Add E aR bG
      let c := challenge E H [V.1, V.2, R.1, R.2, g.1, g.2, alpha.1, alpha.2]
      let t := ModInt.Add q a (c * s)
      let u := ModInt.Add q b (c * l)
      Result.ok ⟨some alpha, some t, some u⟩
  | _, _, _, _ => Result.err "ZKVProof constructor received nil value(s)"

/-- The method `ZKVProof.ValidateBasic`. -/
def ZKVProof.ValidateBasic (E : Curve) (pf : ZKVProof) : Bool :=
  pf.Alpha.isSome && pf.T.isSome && pf.U.isSome &&
    (match pf.Alpha with
     | some Alpha => ECPoint.ValidateBasic E Alpha
     | none => false)

/-- The method `ZKVProof.Verify`; reading the coordinates of a `nil` point panics. -/
def ZKVProof.Verify (E : Curve) (H : Hash) (pf : Option ZKVProof) (V R : Option Point) :
    Option Bool :=
  match pf with
  | none => some false
  | some pf =>
    if !pf.ValidateBasic E then some false
    else
      match pf.Alpha, pf.T, pf.U, V, R with
      | some Alpha, some T, some U, some V, some R =>
        let g : Point := (E.Gx, E.Gy)
        let c := challenge E H [V.1, V.2, R.1, R.2, g.1, g.2, Alpha.1, Alpha.2]
        let tR := ECPoint.ScalarMult E R T
        let uG := ECPoint.ScalarBaseMult E U
        let tRuG := ECPoint.Add E tR uG
        let Vc := ECPoint.ScalarMult E V c
        let aVc := ECPoint.Add E Alpha Vc
        if tRuG.1 ≠ aVc.1 ∨ tRuG.2 ≠ aVc.2 then some false else some true
      | _, _, _, _, _ => none

/-! ## Regroup party (`ecdsa/regroup/local_party.go`)

The party is a record of its mutable state; a channel is the list of the values sent on it
so far. The mutex and the logger are not modelled. -/

/-- Modelled from the spec: `tss.PartyID`, the record `{Id, Moniker, Index, Key}`. -/
structure PartyID where
  Id : String
  Moniker : String
  Index : Int
  Key : List Nat
deriving DecidableEq, Repr

/-- The concrete type of a message as the type switch of `StoreMessage` sees it: the four
regroup message types, or any other type. -/
inductive MessageType where
  | DGRound1OldCommitteeCommitMessage
  | DGRound2NewCommitteeACKMessage
  | DGRound3ShareMessage
  | DGRound3DeCommitMessage
  | other (name : String)
deriving DecidableEq, Repr

/-- Modelled from the spec: a `tss.Message`, the envelope `{from, to?, type, payload}`;
`GetFrom()` is the field `From`. -/
structure Message where
  From : PartyID
  To : Option (List PartyID)
  MsgType : MessageType
  Payload : List Nat
deriving DecidableEq, Repr

/-- Modelled from the spec: `tss.Error`, the record `(round, victim, culprits, cause)`. -/
structure Error where
  cause : String
  round : Int
  victim : Option PartyID
  culprits : List PartyID
deriving DecidableEq, Repr

/-- Modelled from the spec: the data every round carries, its number and the id of the
party that runs it. -/
structure BaseRound where
  number : Int
  partyID : PartyID
deriving DecidableEq, Repr

/-- The dynamic value of the interface field `Round` of a party: a `*round1` pointer (which
may be nil) or a round of another type. A nil interface is `none : Option Round`. -/
inductive Round where
  | round1 (r : Option BaseRound)
  | later (r : BaseRound)
deriving DecidableEq, Repr

/-- Modelled from the spec: `keygen.LocalPartySaveData`, the opaque key record. -/
structure LocalPartySaveData where
  Xi : Option Int
  ShareID : Option Int
  ECDSAPub : Option Point
  Ks : List Int
  BigXj : List Point
deriving DecidableEq, Repr

structure LocalPartyMessageStore where
  dgRound1OldCommitteeCommitMessages : List (Option Message)
  dgRound2NewCommitteeACKMessage : List (Option Message)
  dgRound3ShareMessage : List (Option Message)
  dgRound3DeCommitMessage : List (Option Message)
deriving DecidableEq, Repr

structure LocalPartyTempData where
  LocalPartyMessageStore : LocalPartyMessageStore
  Di : List Int
  NewVs : List Point
  NewShares : List Share
  BigXs : List Point
deriving DecidableEq, Repr

/-- The struct `LocalParty`: `Round` and `Out` are the fields of the embedded `BaseParty`,
`Out` and `endChan` (the field `end`) hold the values sent so far. -/
structure LocalParty where
  Round : Option Round
  Out : List Message
  temp : LocalPartyTempData
  key : LocalPartySaveData
  endChan : List LocalPartySaveData
deriving DecidableEq, Repr

/-- Modelled from the spec: `tss.ReGroupParameters`, of which the constructor reads the
party id and the sizes of the old and the new committee. -/
structure ReGroupParameters where
  PartyID : TssLib.PartyID
  PartyCount : Int
  NewPartyCount : Int
deriving DecidableEq, Repr

/-- Go `make([]*T, n)`: a slice of `n` nil pointers; a negative `n` panics. -/
def makeSlots (n : Int) : Option (List (Option Message)) :=
  if n < 0 then none else some (List.replicate n.toNat none)

/-- Modelled from the spec: `newRound1`, the first round of the party, a non-nil `*round1`
with round number 1. -/
def newRound1 (params : ReGroupParameters) : Round :=
  Round.round1 (some ⟨1, params.PartyID⟩)

/-- The function `NewLocalParty`. -/
def NewLocalParty (params : ReGroupParameters) (key : LocalPartySaveData) (out : List Message)
    (endChan : List LocalPartySaveData) : Option LocalParty :=
  match makeSlots params.PartyCount, makeSlots params.NewPartyCount,
      makeSlots params.PartyCount, makeSlots params.PartyCount with
  | some b1, some b2, some b3, some b4 =>
    some {
      Round := some (newRound1 params)
      Out := out
      temp := ⟨⟨b1, b2, b3, b4⟩, [], [], [], []⟩
      key := key
      endChan := endChan }
  | _, _, _, _ => none

/-- Modelled from the spec: `WrapError(err, culprits...)`, which attaches the round number,
the victim (the party itself) and the given culprits to the cause. -/
def WrapError (round : Option Round) (cause : String) (culprits : List PartyID) : Error :=
  match round with
  | some (Round.round1 (some r)) => ⟨cause, r.number, some r.partyID, culprits⟩
  | some (Round.later r) => ⟨cause, r.number, some r.partyID, culprits⟩
  | _ => ⟨cause, -1, none, culprits⟩

/-- The method `LocalParty.Start`; `roundStart` is `Start` of the party's round 1, given as
its effect on the party and the error it returns. -/
def LocalParty.Start (roundStart : LocalParty → LocalParty × Option Error) (p : LocalParty) :
    LocalParty × Option Error :=
  match p.Round with
  | some (Round.round1 (some _)) => roundStart p
  | _ => (p, some (WrapError p.Round
      "could not start. this party is in an unexpected state. use the constructor and Start()"
      []))

/-- The assignment `buf[i] = &msg`: an index outside the slice panics. -/
def storeAt (buf : List (Option Message)) (i : Int) (msg : Message) :
    Option (List (Option Message)) :=
  if 0 ≤ i ∧ i < (buf.length : Int) then some (buf.set i.toNat (some msg)) else none

/-- The method `LocalParty.StoreMessage`: the new party state, the boolean and the error it
returns; `none` is a panic. -/
def LocalParty.StoreMessage (p : LocalParty) (msg : Message) :
    Option (LocalParty × Bool × Option Error) :=
  let fromPIdx := msg.From.Index
  let st := p.temp.LocalPartyMessageStore
  match msg.MsgType with
  | MessageType.DGRound1OldCommitteeCommitMessage =>
    match storeAt st.dgRound1OldCommitteeCommitMessages fromPIdx msg with
    | none => none
    | some buf => some ({ p with temp := { p.temp with LocalPartyMessageStore :=
        { st with dgRound1OldCommitteeCommitMessages := buf } } }, true, none)
  | MessageType.DGRound2NewCommitteeACKMessage =>
    match storeAt st.dgRound2NewCommitteeACKMessage fromPIdx msg with
    | none => none
    | some buf => some ({ p with temp := { p.temp with LocalPartyMessageStore :=
        { st with dgRound2NewCommitteeACKMessage := buf } } }, true, none)
  | MessageType.DGRound3ShareMessage =>
    match storeAt st.dgRound3ShareMessage fromPIdx msg with
    | none => none
    | some buf => some ({ p with temp := { p.temp with LocalPartyMessageStore :=
        { st with dgRound3ShareMessage := buf } } }, true, none)
  | MessageType.DGRound3DeCommitMessage =>
    match storeAt st.dgRound3DeCommitMessage fromPIdx msg with
    | none => none
    | some buf => some ({ p with temp := { p.temp with LocalPartyMessageStore :=
        { st with dgRound3DeCommitMessage := buf } } }, true, none)
  | MessageType.other _ => some (p, false, none)

/-- The method `LocalParty.Finish`: the send `p.end <- p.key`. -/
def LocalParty.Finish (p : LocalParty) : LocalParty :=
  { p with endChan := p.endChan ++ [p.key] }

/-! ## Specification-side definitions -/

/-- The group-theoretic multiple `k·G` of the base point for an integer `k`: the scalar is
reduced modulo the group order. -/
def Curve.zsmulBase (E : Curve) (k : Int) : Point := E.ScalarBaseMult (k % (E.N : Int)).toNat

/-- The group-theoretic multiple `k·P` of a point for an integer `k`: the scalar is reduced
modulo the group order. -/
def Curve.zsmul (E : Curve) (k : Int) (P : Point) : Point := E.ScalarMult P (k % (E.N : Int)).toNat

/-- The value `a_0 + a_1 x + ... + a_k x^k` of the polynomial with coefficient list
`[a_0, ..., a_k]`. -/
def polyValue (poly : List Int) (x : Int) : Int :=
  ∑ k in Finset.range poly.length, poly.getD k 0 * x ^ k

/-- The coefficient list that `Create` shares: the secret followed by the sampled
coefficients `rnd 1, ..., rnd (t - 1)`. -/
def coefficients (rnd : Nat → Int) (t : Int) (secret : Int) : List Int :=
  secret :: (List.range (t.toNat - 1)).map (fun k => rnd (k + 1))

/-- The Lagrange coefficient at `0` of node `id` (at position `i`) among the nodes `xs`,
in `Z_N`: the product over `j ≠ i` of `x_j · (x_j - id)⁻¹`. -/
def lagrangeCoeff (N : Nat) (xs : List Int) (i : Nat) (id : Int) : ZMod N :=
  ∏ j in (Finset.range xs.length).erase i,
    ((xs.getD j 0 : Int) : ZMod N) * (((xs.getD j 0 : Int) : ZMod N) - ((id : Int) : ZMod N))⁻¹

/-- Lagrange interpolation at `0` in `Z_N` of a share list `(x_i, s_i)`: the sum over `i`
of `s_i` times the product over `j ≠ i` of `x_j · (x_j - x_i)⁻¹`. -/
def lagrangeAtZero (N : Nat) (l : List Share) : ZMod N :=
  ∑ i in Finset.range l.length,
    (((l.map (fun share => share.Share)).getD i 0 : Int) : ZMod N) *
      lagrangeCoeff N (l.map (fun share => share.ID)) i ((l.map (fun share => share.ID)).getD i 0)

/-- The point sum `Σ_{i < n} (id^i mod q)·V_i`, accumulated from the identity. -/
def commitSum (E : Curve) (id : Int) (V : List Point) : Nat → Point
  | 0 => E.ScalarBaseMult 0
  | n + 1 => E.Add (commitSum E id V n) (E.zsmul (id ^ n) (V.getD n (0, 0)))

/-- A message store whose every buffer slot is nil. -/
def LocalPartyMessageStore.cleared (st : LocalPartyMessageStore) : Bool :=
  st.dgRound1OldCommitteeCommitMessages.all Option.isNone &&
    st.dgRound2NewCommitteeACKMessage.all Option.isNone &&
    st.dgRound3ShareMessage.all Option.isNone &&
    st.dgRound3DeCommitMessage.all Option.isNone

/-- Zeroized temp data: every message buffer slot is nil and `Di`, `NewVs`, `NewShares` and
`BigXs` are empty. -/
def LocalPartyTempData.cleared (t : LocalPartyTempData) : Bool :=
  t.LocalPartyMessageStore.cleared && t.Di.isEmpty && t.NewVs.isEmpty &&
    t.NewShares.isEmpty && t.BigXs.isEmpty

/-! ## A concrete lawful curve

The curve `y² = x³ + 7` over `F_67` with the affine addition law, the point at
infinity written `(0, 0)` as in Go's `elliptic` package. It has 79 points
and base point `(2, 22)`. -/

/-- Inverse modulo 67 by Fermat's little theorem. -/
def toyInv (a : Int) : Int := (((a % 67).toNat ^ 65 % 67 : Nat) : Int)

/-- Affine point addition on the toy curve. -/
def toyAdd (P Q : Point) : Point :=
  if P = (0, 0) then Q
  else if Q = (0, 0) then P
  else if P.1 = Q.1 then
    if (P.2 + Q.2) % 67 = 0 then (0, 0)
    else
      let l := (3 * P.1 * P.1 * toyInv (2 * P.2)) % 67
      let x := (l * l - 2 * P.1) % 67
      (x, (l * (P.1 - x) - P.2) % 67)
  else
    let l := ((Q.2 - P.2) * toyInv (Q.1 - P.1)) % 67
    let x := (l * l - P.1 - Q.1) % 67
    (x, (l * (P.1 - x) - P.2) % 67)

/-- Scalar multiplication on the toy curve by repeated addition. -/
def toyMul (P : Point) : Nat → Point
  | 0 => (0, 0)
  | k + 1 => toyAdd (toyMul P k) P

/-- Membership in the toy curve: reduced coordinates satisfying the equation. -/
def toyOn (P : Point) : Bool :=
  decide (0 ≤ P.1) && decide (P.1 < 67) && decide (0 ≤ P.2) && decide (P.2 < 67) &&
    decide ((P.2 * P.2 - (P.1 * P.1 * P.1 + 7)) % 67 = 0)

/-- The toy curve as a `Curve`. -/
def toyCurve : Curve where
  N := 79
  Gx := 2
  Gy := 22
  Add := toyAdd
  ScalarMult := toyMul
  ScalarBaseMult := toyMul (2, 22)
  IsOnCurve := toyOn

/-- The multiples `0·G, 1·G, …, 78·G` of the base point of the toy curve. -/
def toyTable : List Point :=
  [
   (0, 0), (2, 22), (52, 7), (62, 63), (25, 17), (46, 40), (11, 20), (16, 63),
   (21, 42), (13, 44), (56, 4), (24, 30), (14, 65), (55, 17), (5, 20), (53, 12),
   (26, 30), (54, 50), (66, 26), (38, 26), (51, 47), (12, 44), (23, 39), (58, 22),
   (7, 45), (47, 39), (6, 42), (17, 37), (49, 65), (63, 12), (42, 23), (48, 7),
   (64, 39), (34, 60), (40, 25), (18, 12), (61, 40), (30, 41), (27, 40), (4, 65),
   (4, 2), (27, 27), (30, 26), (61, 27), (18, 55), (40, 42), (34, 7), (64, 28),
   (48, 60), (42, 44), (63, 55), (49, 2), (17, 30), (6, 25), (47, 28), (7, 22),
   (58, 45), (23, 28), (12, 23), (51, 20), (38, 41), (66, 41), (54, 17), (26, 37),
   (53, 55), (5, 47), (55, 50), (14, 2), (24, 37), (56, 63), (13, 23), (21, 25),
   (16, 4), (11, 47), (46, 27), (25, 50), (62, 4), (52, 60), (2, 45)]

/-- The `i`-th multiple of the base point, read from the table. -/
def toyPt (i : Nat) : Point := toyTable.getD i (0, 0)

/-- A toy transcript hash: the sum of the transcript, reduced into `[0, q)`. -/
def toyHash : Hash where
  SHA512_256i := fun l => l.sum
  RejectionSample := fun q h => h % q

/-! ## Lawfulness of the toy curve -/
theorem toy_table_add :
    ∀ i < 79, ∀ j < 79, toyAdd (toyPt i) (toyPt j) = toyPt ((i + j) % 79) := by
  decide!

theorem toy_table_inj : ∀ i < 79, ∀ j < 79, toyPt i = toyPt j → i = j := by
  decide!

theorem toy_table_on : ∀ i < 79, (toyOn (toyPt i) = true ↔ i ≠ 0) := by
  decide!

theorem toy_on_table : ∀ x : Nat, x < 67 → ∀ y : Nat, y < 67 →
    toyOn ((x : Int), (y : Int)) = true → ∃ k < 79, toyPt k = ((x : Int), (y : Int)) := by
  decide!

theorem toyMul_base (k : Nat) : toyMul (2, 22) k = toyPt (k % 79) := by
  induction k with
  | zero => rfl
  | succ k ih =>
    have h1 : toyPt 1 = (2, 22) := rfl
    have hk : k % 79 < 79 := Nat.mod_lt _ (by norm_num)
    rw [toyMul, ih, ← h1, toy_table_add _ hk 1 (by norm_num)]
    congr 1
    omega

theorem toyMul_table (a : Nat) (ha : a < 79) (k : Nat) :
    toyMul (toyPt a) k = toyPt ((a * k) % 79) := by
  induction k with
  | zero => rfl
  | succ k ih =>
    have hk : (a * k) % 79 < 79 := Nat.mod_lt _ (by norm_num)
    rw [toyMul, ih, toy_table_add _ hk a ha]
    congr 1
    rw [Nat.mul_succ, Nat.mod_add_mod]

theorem toy_lawful : toyCurve.Lawful where
  prime := by norm_num [toyCurve]
  base_one := rfl
  base_add := by
    intro a b
    show toyAdd (toyMul (2, 22) a) (toyMul (2, 22) b) = toyMul (2, 22) (a + b)
    have ha : a % 79 < 79 := Nat.mod_lt _ (by norm_num)
    have hb : b % 79 < 79 := Nat.mod_lt _ (by norm_num)
    rw [toyMul_base, toyMul_base, toyMul_base, toy_table_add _ ha _ hb]
    congr 1
    omega
  base_mul := by
    intro a k
    show toyMul (toyMul (2, 22) a) k = toyMul (2, 22) (a * k)
    have ha : a % 79 < 79 := Nat.mod_lt _ (by norm_num)
    rw [toyMul_base, toyMul_base, toyMul_table _ ha]
    congr 1
    rw [Nat.mod_mul_mod]
  base_eq := by
    intro a b
    show toyMul (2, 22) a = toyMul (2, 22) b ↔ a % 79 = b % 79
    have ha : a % 79 < 79 := Nat.mod_lt _ (by norm_num)
    have hb : b % 79 < 79 := Nat.mod_lt _ (by norm_num)
    rw [toyMul_base, toyMul_base]
    exact ⟨toy_table_inj _ ha _ hb, fun h => by rw [h]⟩
  base_on := by
    intro k
    show toyOn (toyMul (2, 22) k) = true ↔ k % 79 ≠ 0
    rw [toyMul_base]
    exact toy_table_on _ (Nat.mod_lt _ (by norm_num))
  on_base := by
    intro P hP
    show ∃ r, ∀ k, toyMul P k = toyMul (2, 22) (r * k)
    obtain ⟨x, y⟩ := P
    have hP2 : toyOn (x, y) = true := hP
    simp only [toyOn, Bool.and_eq_true, decide_eq_true_eq] at hP2
    obtain ⟨⟨⟨⟨hx0, hx1⟩, hy0⟩, hy1⟩, -⟩ := hP2
    lift x to Nat using hx0
    lift y to Nat using hy0
    obtain ⟨r, hr, hrP⟩ := toy_on_table x (by omega) y (by omega) hP
    refine ⟨r, fun k => ?_⟩
    rw [← hrP, toyMul_table _ hr, toyMul_base]

theorem toy_hash_lawful : toyHash.Lawful where
  sample_range := by
    intro q h hq
    exact ⟨Int.emod_nonneg h (ne_of_gt hq), Int.emod_lt_of_pos h hq⟩

/-! ## Helper lemmas -/

theorem polyValue_nil (x : Int) : polyValue [] x = 0 := by
  simp [polyValue]

theorem polyValue_cons (a : Int) (l : List Int) (x : Int) :
    polyValue (a :: l) x = a + x * polyValue l x := by
  unfold polyValue
  rw [List.length_cons, Finset.sum_range_succ', Finset.mul_sum]
  simp only [List.getD_cons_succ, List.getD_cons_zero, pow_zero, mul_one]
  rw [add_comm]
  congr 1
  apply Finset.sum_congr rfl
  intro k _
  ring

theorem horner_foldr (l : List Int) (x : Int) :
    l.foldr (fun ai result => result * x + ai) 0 = polyValue l x := by
  induction l with
  | nil => simp [polyValue_nil]
  | cons a l ih => rw [List.foldr_cons, ih, polyValue_cons]; ring

theorem evaluatePolynomial_eq (E : Curve) (poly : List Int) (hp : poly ≠ []) (x : Int) :
    evaluatePolynomial E poly x = some (polyValue poly x % (E.N : Int)) := by
  unfold evaluatePolynomial
  have hrev : poly.reverse ≠ [] := by simpa using hp
  obtain ⟨last, rest, hlr⟩ := List.exists_cons_of_ne_nil hrev
  have hpoly : poly = rest.reverse ++ [last] := by
    have := congrArg List.reverse hlr
    simpa using this
  rw [hlr]
  simp only
  rw [← horner_foldr, hpoly, List.foldr_append, List.foldr_reverse]
  simp

theorem samplePolynomial_eq (rnd : Nat → Int) (t : Int) (ht : 1 ≤ t) (secret : Int) :
    samplePolynomial rnd t secret
      = some (secret :: (List.range (t.toNat - 1)).map (fun k => rnd (k + 1))) := by
  unfold samplePolynomial
  rw [if_neg (by omega)]

theorem mapM_option_map {α β : Type} (f : α → β) (l : List α) :
    l.mapM (fun a => (some (f a) : Option β)) = some (l.map f) := by
  induction l with
  | nil => rfl
  | cons a l ih => rw [List.mapM_cons, ih]; rfl

theorem coefficients_length (rnd : Nat → Int) (t : Int) (ht : 1 ≤ t) (secret : Int) :
    ((coefficients rnd t secret).length : Int) = t := by
  simp [coefficients]
  omega

theorem Create_eq (E : Curve) (rnd : Nat → Int) (t : Int) (ht : 1 ≤ t) (secret : Int)
    (ids : List Int) (hn : t ≤ ids.length) :
    Create E rnd t (some secret) (some ids)
      = Result.ok (⟨⟨t, ids.length⟩, (coefficients rnd t secret).map
            (fun ai => E.ScalarBaseMult (Bytes ai))⟩,
          ids.map (fun id => ⟨t, id, polyValue (coefficients rnd t secret) id % (E.N : Int)⟩)) := by
  unfold Create
  simp only
  rw [if_neg (by omega), samplePolynomial_eq rnd t ht]
  simp only [List.set_cons_zero]
  have h : (fun id => Option.map (fun share => Share.mk t id share)
      (evaluatePolynomial E (secret :: (List.range (t.toNat - 1)).map (fun k => rnd (k + 1))) id))
      = fun id => some (Share.mk t id
        (polyValue (coefficients rnd t secret) id % (E.N : Int))) := by
    funext id
    rw [evaluatePolynomial_eq E _ (by simp)]
    rfl
  rw [h, mapM_option_map]
  rfl

/-! ### ModInverse -/

theorem ModInverse_prime (N : Nat) (hN : Nat.Prime N) (g : Int)
    (hg : ((g : Int) : ZMod N) ≠ 0) :
    ∃ z, ModInverse g (N : Int) = some z ∧ 0 ≤ z ∧ z < (N : Int) ∧
      ((z : Int) : ZMod N) = ((g : Int) : ZMod N)⁻¹ := by
  haveI : Fact (Nat.Prime N) := ⟨hN⟩
  have hNpos : (0 : Int) < N := by exact_mod_cast hN.pos
  unfold ModInverse
  simp only [abs_of_nonneg hNpos.le]
  set g' : Int := if g < 0 then g % (N : Int) else g with hg'
  have hcast : ((g' : Int) : ZMod N) = ((g : Int) : ZMod N) := by
    rw [hg']
    split
    · exact ZMod.intCast_mod g N
    · rfl
  have hndvd : ¬ ((N : Int) ∣ g') := by
    intro h
    apply hg
    rw [← hcast]
    exact (ZMod.intCast_zmod_eq_zero_iff_dvd g' N).2 h
  have hgcd : Int.gcd g' (N : Int) = 1 := by
    rw [Int.gcd_comm]
    have hp : Prime (N : Int) := Nat.prime_iff_prime_int.1 hN
    exact Int.isCoprime_iff_gcd_eq_one.1 ((Prime.coprime_iff_not_dvd hp).2 hndvd)
  rw [if_pos hgcd]
  refine ⟨_, rfl, Int.emod_nonneg _ hNpos.ne', Int.emod_lt_of_pos _ hNpos, ?_⟩
  rw [ZMod.intCast_mod, ← hcast]
  have hb := Int.gcd_eq_gcd_ab g' (N : Int)
  rw [hgcd] at hb
  have hb2 := congrArg (fun z : Int => ((z : Int) : ZMod N)) hb
  simp only [Nat.cast_one, Int.cast_one, Int.cast_add, Int.cast_mul, Int.cast_natCast,
    ZMod.natCast_self, zero_mul, add_zero] at hb2
  exact eq_inv_of_mul_eq_one_right hb2.symm

theorem ModInverse_none (N : Nat) (hN : 1 < N) (g : Int) (hg : ((g : Int) : ZMod N) = 0) :
    ModInverse g (N : Int) = none := by
  have hNpos : (0 : Int) < N := by exact_mod_cast (by omega : 0 < N)
  unfold ModInverse
  simp only [abs_of_nonneg hNpos.le]
  set g' : Int := if g < 0 then g % (N : Int) else g with hg'
  have hcast : ((g' : Int) : ZMod N) = ((g : Int) : ZMod N) := by
    rw [hg']
    split
    · exact ZMod.intCast_mod g N
    · rfl
  have hdvd : (N : Int) ∣ g' := by
    rw [← ZMod.intCast_zmod_eq_zero_iff_dvd, hcast, hg]
  have hgcd : Int.gcd g' (N : Int) ≠ 1 := by
    intro h
    have h1 : (N : Int) ∣ ((Int.gcd g' (N : Int) : Nat) : Int) := Int.dvd_gcd hdvd dvd_rfl
    rw [h] at h1
    have h2 : N ∣ 1 := by exact_mod_cast h1
    have := Nat.le_of_dvd (by norm_num) h2
    omega
  rw [if_neg hgcd]

/-! ### The loops of ReConstruct -/

theorem list_range_map_prod {M : Type} [CommMonoid M] (g : Nat → M) (n : Nat) :
    ((List.range n).map g).prod = ∏ j in Finset.range n, g j := by
  induction n with
  | zero => simp
  | succ n ih =>
    rw [List.range_succ, List.map_append, List.prod_append, ih, Finset.prod_range_succ]
    simp

theorem enumFrom_map_sum {α M : Type} [AddCommMonoid M] (f : Nat × α → M) (d : α) :
    ∀ (l : List α) (k : Nat),
      ((l.enumFrom k).map f).sum = ∑ i in Finset.range l.length, f (k + i, l.getD i d) := by
  intro l
  induction l with
  | nil => intro k; simp
  | cons a l ih =>
    intro k
    rw [List.enumFrom_cons, List.map_cons, List.sum_cons, ih, List.length_cons,
      Finset.sum_range_succ', add_comm]
    congr 1
    apply Finset.sum_congr rfl
    intro i _
    rw [List.getD_cons_succ]
    congr 2
    omega

theorem timesFold (E : Curve) (hN : Nat.Prime E.N) (xs : List Int) (i : Nat) (id : Int) :
    ∀ (js : List Nat) (acc : Int),
      (∀ j ∈ js, j < xs.length ∧
        (j ≠ i → ((xs.getD j 0 : Int) : ZMod E.N) ≠ ((id : Int) : ZMod E.N))) →
      ∃ v, js.foldlM (timesStep E xs i id) acc = some v ∧
        ((v : Int) : ZMod E.N) = ((acc : Int) : ZMod E.N) *
          (js.map (fun j => if j ≠ i then
            ((xs.getD j 0 : Int) : ZMod E.N) *
              (((xs.getD j 0 : Int) : ZMod E.N) - ((id : Int) : ZMod E.N))⁻¹ else 1)).prod := by
  intro js
  induction js with
  | nil => intro acc _; exact ⟨acc, rfl, by simp⟩
  | cons j js ih =>
    intro acc h
    obtain ⟨hj, hne⟩ := h j (List.mem_cons_self _ _)
    have hrest : ∀ j' ∈ js, j' < xs.length ∧
        (j' ≠ i → ((xs.getD j' 0 : Int) : ZMod E.N) ≠ ((id : Int) : ZMod E.N)) :=
      fun j' hj' => h j' (List.mem_cons_of_mem _ hj')
    rw [List.foldlM_cons]
    by_cases hji : j = i
    · have hstep : timesStep E xs i id acc j = some acc := by
        unfold timesStep
        rw [if_neg (by simpa using hji)]
      rw [hstep]
      obtain ⟨v, hv, hvc⟩ := ih acc hrest
      refine ⟨v, by simpa using hv, ?_⟩
      rw [hvc, List.map_cons, List.prod_cons, if_neg (by simpa using hji), one_mul]
    · have hx : xs[j]? = some (xs.getD j 0) := by
        rw [List.getD_eq_getElem?_getD, List.getElem?_eq_getElem hj]
        rfl
      have hsub : (((xs.getD j 0 - id : Int)) : ZMod E.N) ≠ 0 := by
        rw [Int.cast_sub]
        exact sub_ne_zero.2 (hne hji)
      obtain ⟨z, hz, -, -, hzc⟩ := ModInverse_prime E.N hN _ hsub
      have hstep : timesStep E xs i id acc j
          = some ((acc * (xs.getD j 0 * z)) % (E.N : Int)) := by
        unfold timesStep
        rw [if_pos hji, hx]
        simp only [hz]
      rw [hstep]
      obtain ⟨v, hv, hvc⟩ := ih ((acc * (xs.getD j 0 * z)) % (E.N : Int)) hrest
      refine ⟨v, by simpa using hv, ?_⟩
      rw [hvc, List.map_cons, List.prod_cons, if_pos hji, ZMod.intCast_mod, Int.cast_mul,
        Int.cast_mul, hzc, Int.cast_sub, mul_assoc]

theorem timesFold_range (E : Curve) (hN : Nat.Prime E.N) (xs : List Int) (i : Nat) (id : Int)
    (h : ∀ j < xs.length, j ≠ i → ((xs.getD j 0 : Int) : ZMod E.N) ≠ ((id : Int) : ZMod E.N)) :
    ∃ v, (List.range xs.length).foldlM (timesStep E xs i id) 1 = some v ∧
      ((v : Int) : ZMod E.N) = lagrangeCoeff E.N xs i id := by
  obtain ⟨v, hv, hvc⟩ := timesFold E hN xs i id (List.range xs.length) 1
    (fun j hj => ⟨List.mem_range.1 hj, h j (List.mem_range.1 hj)⟩)
  refine ⟨v, hv, ?_⟩
  rw [hvc, Int.cast_one, one_mul, list_range_map_prod, lagrangeCoeff,
    ← Finset.filter_ne' (Finset.range xs.length) i, Finset.prod_filter]

theorem secretFold (E : Curve) (hN : Nat.Prime E.N) (xs : List Int) :
    ∀ (ish : List (Nat × Share)) (acc : Int),
      (∀ p ∈ ish, ∀ j < xs.length, j ≠ p.1 →
        ((xs.getD j 0 : Int) : ZMod E.N) ≠ ((p.2.ID : Int) : ZMod E.N)) →
      0 ≤ acc → acc < (E.N : Int) →
      ∃ v, ish.foldlM (secretStep E xs) acc = some v ∧ 0 ≤ v ∧ v < (E.N : Int) ∧
        ((v : Int) : ZMod E.N) = ((acc : Int) : ZMod E.N) +
          (ish.map (fun p => ((p.2.Share : Int) : ZMod E.N) *
            lagrangeCoeff E.N xs p.1 p.2.ID)).sum := by
  have hNpos : (0 : Int) < E.N := by exact_mod_cast hN.pos
  intro ish
  induction ish with
  | nil => intro acc _ h0 h1; exact ⟨acc, rfl, h0, h1, by simp⟩
  | cons p ish ih =>
    intro acc h h0 h1
    obtain ⟨times, ht, htc⟩ := timesFold_range E hN xs p.1 p.2.ID (h p (List.mem_cons_self _ _))
    have hstep : secretStep E xs acc p = some ((acc + p.2.Share * times) % (E.N : Int)) := by
      unfold secretStep
      simp only [ht]
    rw [List.foldlM_cons, hstep]
    obtain ⟨v, hv, hv0, hv1, hvc⟩ := ih ((acc + p.2.Share * times) % (E.N : Int))
      (fun q hq => h q (List.mem_cons_of_mem _ hq))
      (Int.emod_nonneg _ hNpos.ne') (Int.emod_lt_of_pos _ hNpos)
    refine ⟨v, by simpa using hv, hv0, hv1, ?_⟩
    rw [hvc, List.map_cons, List.sum_cons, ZMod.intCast_mod, Int.cast_add, Int.cast_mul, htc,
      add_assoc]

theorem getD_map_ID (l : List Share) (i : Nat) (hi : i < l.length) :
    (l.map (fun share => share.ID)).getD i 0 = l[i].ID := by
  rw [List.getD_eq_getElem _ _ (by simpa using hi), List.getElem_map]

theorem getD_map_Share (l : List Share) (i : Nat) (hi : i < l.length) :
    (l.map (fun share => share.Share)).getD i 0 = l[i].Share := by
  rw [List.getD_eq_getElem _ _ (by simpa using hi), List.getElem_map]

theorem ids_distinct (N : Nat) (l : List Share)
    (hd : l.Pairwise (fun a b => a.ID % (N : Int) ≠ b.ID % (N : Int)))
    (i j : Nat) (hi : i < l.length) (hj : j < l.length) (hij : i ≠ j) :
    ((l[i].ID : Int) : ZMod N) ≠ ((l[j].ID : Int) : ZMod N) := by
  rw [Ne, ZMod.intCast_eq_intCast_iff']
  rw [List.pairwise_iff_getElem] at hd
  rcases Nat.lt_or_gt_of_ne hij with h | h
  · exact hd i j hi hj h
  · exact fun e => hd j i hj hi h e.symm

theorem ReConstruct_lagrange (E : Curve) (hN : Nat.Prime E.N) (l : List Share) (hne : l ≠ [])
    (hth : (l.head hne).Threshold ≤ (l.length : Int))
    (hd : l.Pairwise (fun a b => a.ID % (E.N : Int) ≠ b.ID % (E.N : Int))) :
    ∃ r, ReConstruct E (some l) = Result.ok r ∧ 0 ≤ r ∧ r < (E.N : Int) ∧
      ((r : Int) : ZMod E.N) = lagrangeAtZero E.N l := by
  have hNpos : (0 : Int) < E.N := by exact_mod_cast hN.pos
  obtain ⟨s0, rest, rfl⟩ := List.exists_cons_of_ne_nil hne
  set l := s0 :: rest with hl
  have hcond : ∀ p ∈ l.enum, ∀ j < (l.map (fun share => share.ID)).length, j ≠ p.1 →
      ((((l.map (fun share => share.ID)).getD j 0 : Int)) : ZMod E.N)
        ≠ ((p.2.ID : Int) : ZMod E.N) := by
    rintro ⟨i, sh⟩ hp j hj hji
    rw [List.length_map] at hj
    rw [List.mk_mem_enum_iff_getElem?] at hp
    obtain ⟨hi, rfl⟩ := List.getElem?_eq_some.1 hp
    rw [getD_map_ID l j hj]
    exact ids_distinct E.N l hd j i hj hi hji
  obtain ⟨v, hv, hv0, hv1, hvc⟩ := secretFold E hN (l.map (fun share => share.ID)) l.enum 0 hcond
    le_rfl hNpos
  refine ⟨v, ?_, hv0, hv1, ?_⟩
  · unfold ReConstruct
    simp only
    rw [if_neg (by simpa using hth)]
    simp only [← hl, hv]
  · rw [hvc, Int.cast_zero, zero_add, List.enum,
      enumFrom_map_sum (fun p : Nat × Share => ((p.2.Share : Int) : ZMod E.N) *
        lagrangeCoeff E.N (l.map (fun share => share.ID)) p.1 p.2.ID) (⟨0, 0, 0⟩ : Share) l 0,
      lagrangeAtZero]
    apply Finset.sum_congr rfl
    intro i hi
    have hi' : i < l.length := Finset.mem_range.1 hi
    simp only [zero_add]
    rw [getD_map_ID l i hi', getD_map_Share l i hi', List.getD_eq_getElem _ _ hi']

theorem exists_poly (N : Nat) (hN : Nat.Prime N) (coefs : List Int) :
    ∃ f : Polynomial (ZMod N), f.degree < (coefs.length : WithBot Nat) ∧
      ∀ x : Int, f.eval ((x : Int) : ZMod N) = ((polyValue coefs x : Int) : ZMod N) := by
  haveI : Fact (Nat.Prime N) := ⟨hN⟩
  induction coefs with
  | nil =>
    refine ⟨0, ?_, fun x => by simp [polyValue_nil]⟩
    rw [Polynomial.degree_zero]
    exact WithBot.bot_lt_coe _
  | cons a l ih =>
    obtain ⟨g, hg, hge⟩ := ih
    refine ⟨Polynomial.C ((a : Int) : ZMod N) + g * Polynomial.X, ?_, fun x => ?_⟩
    · apply lt_of_le_of_lt (Polynomial.degree_add_le _ _)
      rw [max_lt_iff]
      constructor
      · apply lt_of_le_of_lt Polynomial.degree_C_le
        rw [List.length_cons]
        exact_mod_cast Nat.succ_pos _
      · rw [Polynomial.degree_mul_X, List.length_cons, Nat.cast_succ]
        exact WithBot.add_lt_add_right (by simp) hg
    · rw [polyValue_cons]
      simp [hge, mul_comm]

theorem lagrange_polyValue (N : Nat) (hN : Nat.Prime N) (l : List Share) (coefs : List Int)
    (hlen : coefs.length ≤ l.length)
    (hd : l.Pairwise (fun a b => a.ID % (N : Int) ≠ b.ID % (N : Int)))
    (hval : ∀ sh ∈ l, ((sh.Share : Int) : ZMod N) = ((polyValue coefs sh.ID : Int) : ZMod N)) :
    lagrangeAtZero N l = ((polyValue coefs 0 : Int) : ZMod N) := by
  haveI : Fact (Nat.Prime N) := ⟨hN⟩
  obtain ⟨f, hdeg, hf⟩ := exists_poly N hN coefs
  set v : Nat → ZMod N := fun j => (((l.map (fun share => share.ID)).getD j 0 : Int) : ZMod N)
    with hv
  set r : Nat → ZMod N := fun i => (((l.map (fun share => share.Share)).getD i 0 : Int) : ZMod N)
    with hr
  have hinj : Set.InjOn v (Finset.range l.length : Set Nat) := by
    intro i hi j hj hij
    by_contra hne
    have hi' : i < l.length := by simpa using hi
    have hj' : j < l.length := by simpa using hj
    simp only [hv, getD_map_ID l i hi', getD_map_ID l j hj'] at hij
    exact ids_distinct N l hd i j hi' hj' hne hij
  have heval : ∀ i ∈ Finset.range l.length, f.eval (v i) = r i := by
    intro i hi
    have hi' : i < l.length := Finset.mem_range.1 hi
    simp only [hv, hr, getD_map_ID l i hi', getD_map_Share l i hi']
    rw [hf, hval _ (List.getElem_mem hi')]
  have hcard : f.degree < ((Finset.range l.length).card : WithBot Nat) := by
    rw [Finset.card_range]
    exact lt_of_lt_of_le hdeg (by exact_mod_cast hlen)
  have hfi := Lagrange.eq_interpolate_of_eval_eq r hinj hcard heval
  have h0 := hf 0
  rw [Int.cast_zero] at h0
  rw [← h0, hfi, Lagrange.interpolate_apply, Polynomial.eval_finset_sum, lagrangeAtZero]
  apply Finset.sum_congr rfl
  intro i hi
  rw [Polynomial.eval_mul, Polynomial.eval_C, Lagrange.basis, Polynomial.eval_prod, lagrangeCoeff,
    List.length_map]
  congr 1
  apply Finset.prod_congr rfl
  intro j hj
  simp only [Lagrange.basisDivisor, Polynomial.eval_mul, Polynomial.eval_C, Polynomial.eval_sub,
    Polynomial.eval_X, hv]
  rw [zero_sub, ← neg_sub (((l.map (fun share => share.ID)).getD i 0 : Int) : ZMod N), inv_neg]
  ring

theorem ReConstruct_of_poly (E : Curve) (hN : Nat.Prime E.N) (l : List Share) (coefs : List Int)
    (hne : l ≠ []) (hth : (l.head hne).Threshold ≤ (l.length : Int))
    (hd : l.Pairwise (fun a b => a.ID % (E.N : Int) ≠ b.ID % (E.N : Int)))
    (hlen : coefs.length ≤ l.length)
    (hval : ∀ sh ∈ l, sh.Share % (E.N : Int) = polyValue coefs sh.ID % (E.N : Int)) :
    ReConstruct E (some l) = Result.ok (polyValue coefs 0 % (E.N : Int)) := by
  have hNpos : (0 : Int) < E.N := by exact_mod_cast hN.pos
  obtain ⟨r, hr, hr0, hr1, hrc⟩ := ReConstruct_lagrange E hN l hne hth hd
  rw [lagrange_polyValue E.N hN l coefs hlen hd
    (fun sh hsh => (ZMod.intCast_eq_intCast_iff' _ _ _).2 (hval sh hsh))] at hrc
  rw [hr]
  congr 1
  rw [ZMod.intCast_eq_intCast_iff', Int.emod_eq_of_lt hr0 hr1] at hrc
  exact hrc

theorem polyValue_zero (a : Int) (l : List Int) : polyValue (a :: l) 0 = a := by
  rw [polyValue_cons]; ring

/-! ### Curve arithmetic under the contract -/

theorem sbm_eq_iff (E : Curve) (h : E.Lawful) (m n : Nat) :
    E.ScalarBaseMult m = E.ScalarBaseMult n ↔ ((m : Nat) : ZMod E.N) = ((n : Nat) : ZMod E.N) := by
  rw [h.base_eq, ZMod.natCast_eq_natCast_iff']

theorem cast_Bytes (N : Nat) (k : Int) (hk : 0 ≤ k) :
    ((Bytes k : Nat) : ZMod N) = ((k : Int) : ZMod N) := by
  unfold Bytes
  rw [← Int.cast_natCast, Int.natAbs_of_nonneg hk]

theorem cast_toNat_emod (N : Nat) (hN : 0 < N) (k : Int) :
    (((k % (N : Int)).toNat : Nat) : ZMod N) = ((k : Int) : ZMod N) := by
  have hNpos : (0 : Int) < N := by exact_mod_cast hN
  rw [← Int.cast_natCast, Int.toNat_of_nonneg (Int.emod_nonneg _ hNpos.ne'), ZMod.intCast_mod]

theorem sbm_Bytes_eq_zsmulBase (E : Curve) (h : E.Lawful) (k : Int) (hk : 0 ≤ k) :
    E.ScalarBaseMult (Bytes k) = E.zsmulBase k := by
  unfold Curve.zsmulBase
  rw [sbm_eq_iff E h, cast_Bytes _ _ hk, cast_toNat_emod _ h.prime.pos]

/-! ### The loop of Share.Verify -/

theorem verifyFold (E : Curve) (h : E.Lawful) (as : List Nat) (id : Int) :
    ∀ (k s m : Nat) (kj : Int), s + k ≤ as.length → 0 ≤ kj →
      ((kj : Int) : ZMod E.N) = ((id : Int) : ZMod E.N) ^ s →
      ∃ m' kj', (List.range' s k).foldlM (verifyStep E (as.map E.ScalarBaseMult) id)
          (E.ScalarBaseMult m, kj) = some (E.ScalarBaseMult m', kj') ∧
        ((m' : Nat) : ZMod E.N) = ((m : Nat) : ZMod E.N) +
          ∑ i in Finset.range k, ((as.getD (s + i) 0 : Nat) : ZMod E.N) *
            ((id : Int) : ZMod E.N) ^ (s + i) := by
  have hNpos : (0 : Int) < E.N := by exact_mod_cast h.prime.pos
  intro k
  induction k with
  | zero => intro s m kj _ _ _; exact ⟨m, kj, rfl, by simp⟩
  | succ k ih =>
    intro s m kj hlen hkj hkjc
    have hs : s < as.length := by omega
    have hget : (as.map E.ScalarBaseMult)[s]? = some (E.ScalarBaseMult (as.getD s 0)) := by
      rw [List.getElem?_map, List.getElem?_eq_getElem hs, List.getD_eq_getElem _ _ hs]
      rfl
    have hstep : verifyStep E (as.map E.ScalarBaseMult) id (E.ScalarBaseMult m, kj) s
        = some (E.ScalarBaseMult (m + as.getD s 0 * Bytes kj), (kj * id) % (E.N : Int)) := by
      unfold verifyStep
      rw [hget]
      simp only [h.base_mul, h.base_add]
    rw [List.range'_succ, List.foldlM_cons, hstep]
    obtain ⟨m', kj', hf, hm'⟩ := ih (s + 1) (m + as.getD s 0 * Bytes kj) ((kj * id) % (E.N : Int))
      (by omega) (Int.emod_nonneg _ hNpos.ne')
      (by rw [ZMod.intCast_mod, Int.cast_mul, hkjc, pow_succ])
    refine ⟨m', kj', by simpa using hf, ?_⟩
    rw [hm', Finset.sum_range_succ', Nat.cast_add, Nat.cast_mul, cast_Bytes _ _ hkj, hkjc,
      add_zero, add_assoc]
    congr 1
    rw [add_comm]
    congr 1
    apply Finset.sum_congr rfl
    intro i _
    have e : s + 1 + i = s + (i + 1) := by omega
    rw [e]

/-- The value in `Z_N` of the polynomial with coefficients `as` truncated to `n` terms. -/
theorem polyValue_take_cast (N : Nat) (coefs : List Int) (n : Nat) (hn : n ≤ coefs.length)
    (x : Int) :
    ((polyValue (coefs.take n) x : Int) : ZMod N)
      = ∑ i in Finset.range n, ((coefs.getD i 0 : Int) : ZMod N) * ((x : Int) : ZMod N) ^ i := by
  unfold polyValue
  rw [List.length_take, min_eq_left hn]
  push_cast
  apply Finset.sum_congr rfl
  intro i hi
  have hi' : i < n := Finset.mem_range.1 hi
  rw [List.getD_eq_getElem?_getD, List.getD_eq_getElem?_getD, List.getElem?_take_of_lt hi']

theorem Verify_eq (E : Curve) (h : E.Lawful) (t : Int) (ht : 1 ≤ t) (id value : Int)
    (hid : 0 ≤ id) (as : List Nat) (hlen : t ≤ (as.length : Int)) :
    ∃ m : Nat, Share.Verify E ⟨t, id, value⟩ t (as.map E.ScalarBaseMult)
        = some (decide (E.ScalarBaseMult m = E.ScalarBaseMult (Bytes value))) ∧
      ((m : Nat) : ZMod E.N) = ∑ i in Finset.range t.toNat,
        ((as.getD i 0 : Nat) : ZMod E.N) * ((id : Int) : ZMod E.N) ^ i := by
  have hpos : 0 < as.length := by omega
  obtain ⟨m', kj', hf, hm'⟩ := verifyFold E h as id (t.toNat - 1) 1 (as.getD 0 0) id (by omega) hid
    (by rw [pow_one])
  refine ⟨m', ?_, ?_⟩
  · unfold Share.Verify
    have h0 : (as.map E.ScalarBaseMult)[0]? = some (E.ScalarBaseMult (as.getD 0 0)) := by
      rw [List.getElem?_map, List.getElem?_eq_getElem hpos, List.getD_eq_getElem _ _ hpos]
      rfl
    simp only [ne_eq, not_true_eq_false, if_false, h0, hf]
  · rw [hm']
    have e : t.toNat = (t.toNat - 1) + 1 := by omega
    rw [e, Finset.sum_range_succ', pow_zero, mul_one, add_comm]
    congr 1
    apply Finset.sum_congr rfl
    intro i _
    rw [add_comm 1 i]

theorem commitSum_eq (E : Curve) (h : E.Lawful) (id : Int) (as : List Nat) :
    ∀ n, n ≤ as.length → ∃ m : Nat, commitSum E id (as.map E.ScalarBaseMult) n
        = E.ScalarBaseMult m ∧
      ((m : Nat) : ZMod E.N) = ∑ i in Finset.range n,
        ((as.getD i 0 : Nat) : ZMod E.N) * ((id : Int) : ZMod E.N) ^ i := by
  intro n
  induction n with
  | zero => intro _; exact ⟨0, rfl, by simp⟩
  | succ n ih =>
    intro hn
    obtain ⟨m, hm, hmc⟩ := ih (by omega)
    have hlt : n < as.length := by omega
    have hget : (as.map E.ScalarBaseMult).getD n (0, 0) = E.ScalarBaseMult (as.getD n 0) := by
      rw [List.getD_eq_getElem _ _ (by simpa using hlt), List.getElem_map,
        List.getD_eq_getElem _ _ hlt]
    refine ⟨m + as.getD n 0 * (id ^ n % (E.N : Int)).toNat, ?_, ?_⟩
    · rw [commitSum, hm, hget, Curve.zsmul, h.base_mul, h.base_add]
    · rw [Nat.cast_add, Nat.cast_mul, cast_toNat_emod _ h.prime.pos, hmc, Finset.sum_range_succ,
        Int.cast_pow]

theorem Verify_poly (E : Curve) (h : E.Lawful) (t : Int) (ht : 1 ≤ t) (id value : Int)
    (hid : 0 ≤ id) (hv : 0 ≤ value) (coefs : List Int) (as : List Nat)
    (hlen : t ≤ (coefs.length : Int)) (has : as.length = coefs.length)
    (hcast : ∀ i, ((as.getD i 0 : Nat) : ZMod E.N) = ((coefs.getD i 0 : Int) : ZMod E.N)) :
    Share.Verify E ⟨t, id, value⟩ t (as.map E.ScalarBaseMult)
      = some (decide (value % (E.N : Int) = polyValue (coefs.take t.toNat) id % (E.N : Int))) := by
  obtain ⟨m, hm, hmc⟩ := Verify_eq E h t ht id value hid as (by omega)
  rw [hm]
  congr 1
  rw [decide_eq_decide, sbm_eq_iff E h, cast_Bytes _ _ hv, ← ZMod.intCast_eq_intCast_iff',
    polyValue_take_cast _ _ _ (by omega), hmc]
  simp only [hcast]
  exact eq_comm

/-! ### Schnorr verification equations -/

theorem ZKProof_Verify_eq (E : Curve) (H : Hash) (Alpha : Point) (T : Int) (X : Point) :
    ZKProof.Verify E H (some ⟨some Alpha, some T⟩) (some X)
      = some (decide (E.Add Alpha (E.ScalarMult X (Bytes
          (challenge E H [X.1, X.2, E.Gx, E.Gy, Alpha.1, Alpha.2])))
        = E.ScalarBaseMult (Bytes T))) := by
  unfold ZKProof.Verify
  simp only [ZKProof.ValidateBasic, Option.isSome_some, Bool.and_self, Bool.not_true,
    Bool.false_eq_true, if_false, ECPoint.Add, ECPoint.ScalarMult, ECPoint.ScalarBaseMult]
  by_cases hc : E.Add Alpha (E.ScalarMult X (Bytes
      (challenge E H [X.1, X.2, E.Gx, E.Gy, Alpha.1, Alpha.2]))) = E.ScalarBaseMult (Bytes T)
  · rw [decide_eq_true hc, if_neg (by simp [hc])]
  · rw [decide_eq_false hc, if_pos]
    by_contra hn
    push_neg at hn
    exact hc (Prod.ext hn.1 hn.2)

theorem ZKVProof_Verify_eq (E : Curve) (H : Hash) (Alpha : Point) (T U : Int) (V R : Point)
    (hA : E.IsOnCurve Alpha = true) :
    ZKVProof.Verify E H (some ⟨some Alpha, some T, some U⟩) (some V) (some R)
      = some (decide (E.Add (E.ScalarMult R (Bytes T)) (E.ScalarBaseMult (Bytes U))
        = E.Add Alpha (E.ScalarMult V (Bytes
          (challenge E H [V.1, V.2, R.1, R.2, E.Gx, E.Gy, Alpha.1, Alpha.2]))))) := by
  unfold ZKVProof.Verify
  simp only [ZKVProof.ValidateBasic, ECPoint.ValidateBasic, hA, Option.isSome_some, Bool.and_self,
    Bool.not_true, Bool.false_eq_true, if_false, ECPoint.Add, ECPoint.ScalarMult,
    ECPoint.ScalarBaseMult]
  by_cases hc : E.Add (E.ScalarMult R (Bytes T)) (E.ScalarBaseMult (Bytes U))
      = E.Add Alpha (E.ScalarMult V (Bytes
        (challenge E H [V.1, V.2, R.1, R.2, E.Gx, E.Gy, Alpha.1, Alpha.2])))
  · rw [decide_eq_true hc, if_neg (by simp [hc])]
  · rw [decide_eq_false hc, if_pos]
    by_contra hn
    push_neg at hn
    exact hc (Prod.ext hn.1 hn.2)

theorem challenge_nonneg (E : Curve) (H : Hash) (hN : 0 < E.N) (hH : H.Lawful) (l : List Int) :
    0 ≤ challenge E H l := (hH.sample_range _ _ (by exact_mod_cast hN)).1

theorem coefficients_nonneg (rnd : Nat → Int) (hr : ∀ i, 0 ≤ rnd i) (t : Int) (secret : Int)
    (hs : 0 ≤ secret) : ∀ a ∈ coefficients rnd t secret, 0 ≤ a := by
  intro a ha
  rw [coefficients, List.mem_cons] at ha
  rcases ha with rfl | ha
  · exact hs
  · obtain ⟨k, -, rfl⟩ := List.mem_map.1 ha
    exact hr _

theorem cast_getD_toNat (N : Nat) (hN : 0 < N) (l : List Int) (i : Nat) :
    (((l.map (fun a => (a % (N : Int)).toNat)).getD i 0 : Nat) : ZMod N)
      = ((l.getD i 0 : Int) : ZMod N) := by
  have e : (l.map (fun a => (a % (N : Int)).toNat)).getD i 0
      = ((l.getD i 0) % (N : Int)).toNat := by
    rw [List.getD_eq_getElem?_getD, List.getD_eq_getElem?_getD, List.getElem?_map]
    cases l[i]? <;> simp
  rw [e, cast_toNat_emod _ hN]

theorem NewZKProof_accepted (E : Curve) (H : Hash) (h : E.Lawful) (hH : H.Lawful) (x : Int)
    (hx1 : 1 ≤ x) (hx2 : x < (E.N : Int)) (a : Int) (ha : 0 ≤ a) :
    ∃ pf, NewZKProof E H a (some x) (some (ECPoint.ScalarBaseMult E x)) = Result.ok pf ∧
      pf.Alpha = some (ECPoint.ScalarBaseMult E a) ∧
      pf.T = some ((a + challenge E H [(ECPoint.ScalarBaseMult E x).1,
        (ECPoint.ScalarBaseMult E x).2, E.Gx, E.Gy, (ECPoint.ScalarBaseMult E a).1,
        (ECPoint.ScalarBaseMult E a).2] * x) % (E.N : Int)) ∧
      ZKProof.Verify E H (some pf) (some (ECPoint.ScalarBaseMult E x)) = some true := by
  have hNpos : (0 : Int) < E.N := by exact_mod_cast h.prime.pos
  have hx0 : (0 : Int) ≤ x := by omega
  have hvalid : ECPoint.ValidateBasic E (ECPoint.ScalarBaseMult E x) = true := by
    unfold ECPoint.ValidateBasic ECPoint.ScalarBaseMult
    rw [h.base_on]
    intro hmod
    have h1 : ((Bytes x : Nat) : Int) % (E.N : Int) = 0 := by exact_mod_cast hmod
    unfold Bytes at h1
    rw [Int.natAbs_of_nonneg hx0, Int.emod_eq_of_lt hx0 hx2] at h1
    omega
  refine ⟨⟨some (ECPoint.ScalarBaseMult E a),
    some ((a + challenge E H [(ECPoint.ScalarBaseMult E x).1,
      (ECPoint.ScalarBaseMult E x).2, E.Gx, E.Gy, (ECPoint.ScalarBaseMult E a).1,
      (ECPoint.ScalarBaseMult E a).2] * x) % (E.N : Int))⟩, ?_, rfl, rfl, ?_⟩
  · unfold NewZKProof
    simp only [hvalid, Bool.not_true, Bool.false_eq_true, if_false, ModInt.Add]
  · rw [ZKProof_Verify_eq]
    congr 1
    rw [decide_eq_true_eq]
    set c := challenge E H [(ECPoint.ScalarBaseMult E x).1, (ECPoint.ScalarBaseMult E x).2,
      E.Gx, E.Gy, (ECPoint.ScalarBaseMult E a).1, (ECPoint.ScalarBaseMult E a).2] with hc
    have hc0 : 0 ≤ c := challenge_nonneg E H h.prime.pos hH _
    unfold ECPoint.ScalarBaseMult
    rw [h.base_mul, h.base_add, sbm_eq_iff E h, Nat.cast_add, Nat.cast_mul, cast_Bytes _ _ ha,
      cast_Bytes _ _ hx0, cast_Bytes _ _ hc0, cast_Bytes _ _ (Int.emod_nonneg _ hNpos.ne'),
      ZMod.intCast_mod]
    push_cast
    ring

/-! ## Claims -/

/-- C3: for a lawful curve and sampler, every `x` in `[1, q)` with `X = x·G` and every
non-negative nonce `a`, `NewZKProof` returns the proof `(Alpha = a·G, T = a + c·x mod q)`,
with `c` the challenge of `(X, G, Alpha)`, and `Verify` accepts it for `X`. -/
theorem c3_schnorr_complete (E : Curve) (H : Hash) (h : E.Lawful) (hH : H.Lawful) (x : Int)
    (hx1 : 1 ≤ x) (hx2 : x < (E.N : Int)) (a : Int) (ha : 0 ≤ a) :
    ∃ pf, NewZKProof E H a (some x) (some (ECPoint.ScalarBaseMult E x)) = Result.ok pf ∧
      pf.Alpha = some (ECPoint.ScalarBaseMult E a) ∧
      pf.T = some ((a + challenge E H [(ECPoint.ScalarBaseMult E x).1,
        (ECPoint.ScalarBaseMult E x).2, E.Gx, E.Gy, (ECPoint.ScalarBaseMult E a).1,
        (ECPoint.ScalarBaseMult E a).2] * x) % (E.N : Int)) ∧
      ZKProof.Verify E H (some pf) (some (ECPoint.ScalarBaseMult E x)) = some true :=
  NewZKProof_accepted E H h hH x hx1 hx2 a ha

theorem c3_schnorr_complete_witness :
    ∃ pf, NewZKProof toyCurve toyHash 5 (some 7) (some (ECPoint.ScalarBaseMult toyCurve 7))
        = Result.ok pf ∧
      pf.Alpha = some (ECPoint.ScalarBaseMult toyCurve 5) ∧
      pf.T = some ((5 + challenge toyCurve toyHash [(ECPoint.ScalarBaseMult toyCurve 7).1,
        (ECPoint.ScalarBaseMult toyCurve 7).2, toyCurve.Gx, toyCurve.Gy,
        (ECPoint.ScalarBaseMult toyCurve 5).1,
        (ECPoint.ScalarBaseMult toyCurve 5).2] * 7) % (toyCurve.N : Int)) ∧
      ZKProof.Verify toyCurve toyHash (some pf) (some (ECPoint.ScalarBaseMult toyCurve 7))
        = some true :=
  c3_schnorr_complete toyCurve toyHash toy_lawful toy_hash_lawful 7 (by decide) (by decide) 5
    (by decide)

/-- C4 (amended): for a lawful curve and sampler, every `s` and `l`, every valid point `R`
and non-negative nonces `a`, `b` such that `V = s·R + l·G` and `Alpha = a·R + b·G` are valid
points (neither is the identity), `NewZKVProof` returns a proof and `Verify` accepts it for
`(V, R)`. -/
theorem c4_zkv_complete (E : Curve) (H : Hash) (h : E.Lawful) (hH : H.Lawful) (R : Point)
    (hR : E.IsOnCurve R = true) (s l a b : Int) (ha : 0 ≤ a) (hb : 0 ≤ b)
    (hV : E.IsOnCurve (E.Add (E.zsmul s R) (E.zsmulBase l)) = true)
    (hA : E.IsOnCurve (E.Add (ECPoint.ScalarMult E R a) (ECPoint.ScalarBaseMult E b)) = true) :
    ∃ pf, NewZKVProof E H a b (some (E.Add (E.zsmul s R) (E.zsmulBase l))) (some R) (some s)
        (some l) = Result.ok pf ∧
      ZKVProof.Verify E H (some pf) (some (E.Add (E.zsmul s R) (E.zsmulBase l))) (some R)
        = some true := by
  have hNpos : (0 : Int) < E.N := by exact_mod_cast h.prime.pos
  obtain ⟨r, hr⟩ := h.on_base R hR
  refine ⟨⟨some (E.Add (ECPoint.ScalarMult E R a) (ECPoint.ScalarBaseMult E b)),
    some ((a + challenge E H [(E.Add (E.zsmul s R) (E.zsmulBase l)).1,
      (E.Add (E.zsmul s R) (E.zsmulBase l)).2, R.1, R.2, E.Gx, E.Gy,
      (E.Add (ECPoint.ScalarMult E R a) (ECPoint.ScalarBaseMult E b)).1,
      (E.Add (ECPoint.ScalarMult E R a) (ECPoint.ScalarBaseMult E b)).2] * s) % (E.N : Int)),
    some ((b + challenge E H [(E.Add (E.zsmul s R) (E.zsmulBase l)).1,
      (E.Add (E.zsmul s R) (E.zsmulBase l)).2, R.1, R.2, E.Gx, E.Gy,
      (E.Add (ECPoint.ScalarMult E R a) (ECPoint.ScalarBaseMult E b)).1,
      (E.Add (ECPoint.ScalarMult E R a) (ECPoint.ScalarBaseMult E b)).2] * l) % (E.N : Int))⟩,
    ?_, ?_⟩
  · unfold NewZKVProof
    simp only [ECPoint.ValidateBasic, hV, hR, Bool.not_true, Bool.or_self, Bool.false_eq_true,
      if_false, ModInt.Add, ECPoint.Add]
  · rw [ZKVProof_Verify_eq _ _ _ _ _ _ _ hA]
    congr 1
    rw [decide_eq_true_eq]
    set V := E.Add (E.zsmul s R) (E.zsmulBase l) with hVdef
    set c := challenge E H [V.1, V.2, R.1, R.2, E.Gx, E.Gy,
      (E.Add (ECPoint.ScalarMult E R a) (ECPoint.ScalarBaseMult E b)).1,
      (E.Add (ECPoint.ScalarMult E R a) (ECPoint.ScalarBaseMult E b)).2] with hc
    have hc0 : 0 ≤ c := challenge_nonneg E H h.prime.pos hH _
    have hVe : V = E.ScalarBaseMult (r * (s % (E.N : Int)).toNat + (l % (E.N : Int)).toNat) := by
      rw [hVdef, Curve.zsmul, Curve.zsmulBase, hr, h.base_add]
    rw [hVe]
    unfold ECPoint.ScalarMult ECPoint.ScalarBaseMult
    rw [hr, hr, h.base_add, h.base_add, h.base_mul, h.base_add, sbm_eq_iff E h]
    simp only [Nat.cast_add, Nat.cast_mul, cast_Bytes _ _ ha, cast_Bytes _ _ hb,
      cast_Bytes _ _ hc0, cast_Bytes _ _ (Int.emod_nonneg _ hNpos.ne'), ZMod.intCast_mod,
      cast_toNat_emod _ h.prime.pos]
    push_cast
    ring

theorem c4_zkv_complete_witness :
    ∃ pf, NewZKVProof toyCurve toyHash 4 6
        (some (toyCurve.Add (toyCurve.zsmul 3 (52, 7)) (toyCurve.zsmulBase (-2))))
        (some (52, 7)) (some 3) (some (-2)) = Result.ok pf ∧
      ZKVProof.Verify toyCurve toyHash (some pf)
        (some (toyCurve.Add (toyCurve.zsmul 3 (52, 7)) (toyCurve.zsmulBase (-2))))
        (some (52, 7)) = some true :=
  c4_zkv_complete toyCurve toyHash toy_lawful toy_hash_lawful (52, 7) (by decide) 3 (-2) 4 6
    (by decide) (by decide) (by decide!) (by decide!)

/-- C4 (counterexample): on the toy curve (`q = 79`) with `R = G`, `s = 1`, `l = 0` and
the nonces `a = 1`, `b = 78`, `NewZKVProof` returns a proof whose `Alpha = a·R + b·G` is
the identity and `Verify` rejects it; and with `s = l = 0`, where `V` is the identity,
`NewZKVProof` returns an error and no proof. -/
theorem c4_zkv_complete_counterexample :
    (∃ pf, NewZKVProof toyCurve toyHash 1 78
        (some (toyCurve.Add (toyCurve.zsmul 1 (2, 22)) (toyCurve.zsmulBase 0)))
        (some (2, 22)) (some 1) (some 0) = Result.ok pf ∧
      ZKVProof.Verify toyCurve toyHash (some pf)
        (some (toyCurve.Add (toyCurve.zsmul 1 (2, 22)) (toyCurve.zsmulBase 0)))
        (some (2, 22)) = some false) ∧
    NewZKVProof toyCurve toyHash 1 1
        (some (toyCurve.Add (toyCurve.zsmul 0 (2, 22)) (toyCurve.zsmulBase 0)))
        (some (2, 22)) (some 0) (some 0)
      = Result.err "ZKVProof constructor received nil value(s)" :=
  ⟨⟨⟨some (0, 0), some 73, some 78⟩, by decide!, by decide!⟩, by decide!⟩

/-- C5 (amended): for a lawful curve, `t ≥ 1`, a share with `Threshold = t`, a non-negative
id and a non-negative value, and `t` commitments `V_i = a_i·G`, `Verify` returns true when
the value is congruent modulo `q` to `f(id)` and false otherwise; for a value below `q` it
returns true exactly when the value equals `f(id) mod q`. -/
theorem c5_verify_iff_value (E : Curve) (h : E.Lawful) (t : Int) (ht : 1 ≤ t) (sh : Share)
    (hth : sh.Threshold = t) (hid : 0 ≤ sh.ID) (hv : 0 ≤ sh.Share) (coefs : List Int)
    (hlen : (coefs.length : Int) = t) :
    sh.Verify E t (coefs.map E.zsmulBase)
        = some (decide (sh.Share % (E.N : Int) = polyValue coefs sh.ID % (E.N : Int))) ∧
      (sh.Share < (E.N : Int) →
        (sh.Verify E t (coefs.map E.zsmulBase) = some true ↔
          sh.Share = polyValue coefs sh.ID % (E.N : Int))) := by
  obtain ⟨th, id, value⟩ := sh
  simp only at hth hid hv
  subst hth
  have hmap : coefs.map E.zsmulBase
      = (coefs.map (fun a => (a % (E.N : Int)).toNat)).map E.ScalarBaseMult := by
    rw [List.map_map]; rfl
  have key := Verify_poly E h th ht id value hid hv coefs
    (coefs.map (fun a => (a % (E.N : Int)).toNat)) (by omega) (by simp)
    (cast_getD_toNat E.N h.prime.pos coefs)
  rw [List.take_of_length_le (by omega), ← hmap] at key
  refine ⟨key, fun hlt => ?_⟩
  rw [key, Int.emod_eq_of_lt hv hlt]
  simp

theorem c5_verify_iff_value_witness :
    Share.Verify toyCurve ⟨2, 3, 14⟩ 2 ([5, 3].map toyCurve.zsmulBase)
        = some (decide ((14 : Int) % (toyCurve.N : Int)
            = polyValue [5, 3] 3 % (toyCurve.N : Int))) ∧
      ((14 : Int) < (toyCurve.N : Int) →
        (Share.Verify toyCurve ⟨2, 3, 14⟩ 2 ([5, 3].map toyCurve.zsmulBase) = some true ↔
          (14 : Int) = polyValue [5, 3] 3 % (toyCurve.N : Int))) :=
  c5_verify_iff_value toyCurve toy_lawful 2 (by decide) ⟨2, 3, 14⟩ rfl (by decide) (by decide)
    [5, 3] (by decide)

/-- C5 (counterexample): on the toy curve (`q = 79`) the stated equivalence fails for the
unreduced value `79` against `f = 0`, for the negative id `-1` against `f = 1 + x`, and for
`t = 0`, where `Verify` panics on the empty commitment list. -/
theorem c5_verify_iff_counterexample :
    ¬ (Share.Verify toyCurve ⟨1, 0, 79⟩ 1 ([0].map toyCurve.zsmulBase) = some true ↔
        (79 : Int) = polyValue [0] 0 % (toyCurve.N : Int)) ∧
    ¬ (Share.Verify toyCurve ⟨2, -1, 0⟩ 2 ([1, 1].map toyCurve.zsmulBase) = some true ↔
        (0 : Int) = polyValue [1, 1] (-1) % (toyCurve.N : Int)) ∧
    ¬ (Share.Verify toyCurve ⟨0, 1, 0⟩ 0 ([].map toyCurve.zsmulBase) = some true ↔
        (0 : Int) = polyValue [] 1 % (toyCurve.N : Int)) := by
  decide!

/-- C6 (amended): for a lawful curve, `t ≥ 1`, a share with `Threshold = t`, a non-negative
id and a non-negative value, and at least `t` commitments `V_i = a_i·G`, `Verify` returns
true when the point sum over `i < t` of `(id^i mod q)·V_i` equals `value·G` and false
otherwise: its loop computes exactly that sum. -/
theorem c6_verify_point_sum (E : Curve) (h : E.Lawful) (t : Int) (ht : 1 ≤ t) (sh : Share)
    (hth : sh.Threshold = t) (hid : 0 ≤ sh.ID) (hv : 0 ≤ sh.Share) (as : List Nat)
    (hlen : t ≤ (as.length : Int)) :
    sh.Verify E t (as.map E.ScalarBaseMult)
      = some (decide (commitSum E sh.ID (as.map E.ScalarBaseMult) t.toNat
          = E.zsmulBase sh.Share)) := by
  obtain ⟨th, id, value⟩ := sh
  simp only at hth hid hv
  subst hth
  obtain ⟨m, hm, hmc⟩ := Verify_eq E h th ht id value hid as hlen
  obtain ⟨m2, hm2, hmc2⟩ := commitSum_eq E h id as th.toNat (by omega)
  rw [hm]
  simp only
  rw [hm2, sbm_Bytes_eq_zsmulBase E h value hv]
  congr 1
  rw [decide_eq_decide, Curve.zsmulBase, sbm_eq_iff E h, sbm_eq_iff E h, hmc, hmc2]

theorem c6_verify_point_sum_witness :
    Share.Verify toyCurve ⟨2, 3, 14⟩ 2 ([5, 3, 4].map toyCurve.ScalarBaseMult)
      = some (decide (commitSum toyCurve 3 ([5, 3, 4].map toyCurve.ScalarBaseMult) (2 : Int).toNat
          = toyCurve.zsmulBase 14)) :=
  c6_verify_point_sum toyCurve toy_lawful 2 (by decide) ⟨2, 3, 14⟩ rfl (by decide) (by decide)
    [5, 3, 4] (by decide)

/-- C6 (counterexample): on the toy curve (`q = 79`) with commitments `[G, G]` the share
`(t = 2, id = -1, value = 2)` is accepted although the point sum `G + (-1 mod q)·G` is the
identity and not `2·G`; and with the commitment `[G]` the share `(t = 1, id = 0, value = -1)`
is accepted although `G` is not `(-1)·G`. -/
theorem c6_verify_point_sum_counterexample :
    ¬ (Share.Verify toyCurve ⟨2, -1, 2⟩ 2 ([1, 1].map toyCurve.ScalarBaseMult) = some true ↔
        commitSum toyCurve (-1) ([1, 1].map toyCurve.ScalarBaseMult) 2
          = toyCurve.zsmulBase 2) ∧
    ¬ (Share.Verify toyCurve ⟨1, 0, -1⟩ 1 ([1].map toyCurve.ScalarBaseMult) = some true ↔
        commitSum toyCurve 0 ([1].map toyCurve.ScalarBaseMult) 1
          = toyCurve.zsmulBase (-1)) := by
  decide!

/-- C7: for a prime group order and a non-empty share list whose ids are pairwise distinct
modulo `q` and which has at least as many entries as the threshold it records, `ReConstruct`
returns, without error, the value in `[0, q)` that is the Lagrange interpolation at `0`,
the sum over `i` of `s_i` times the product over `j ≠ i` of `x_j·(x_j - x_i)⁻¹` in `Z_q`. -/
theorem c7_reconstruct_lagrange (E : Curve) (hN : Nat.Prime E.N) (l : List Share)
    (hne : l ≠ []) (hth : (l.head hne).Threshold ≤ (l.length : Int))
    (hd : l.Pairwise (fun a b => a.ID % (E.N : Int) ≠ b.ID % (E.N : Int))) :
    ∃ r, ReConstruct E (some l) = Result.ok r ∧ 0 ≤ r ∧ r < (E.N : Int) ∧
      ((r : Int) : ZMod E.N) = lagrangeAtZero E.N l :=
  ReConstruct_lagrange E hN l hne hth hd

theorem c7_reconstruct_lagrange_witness :
    ∃ r, ReConstruct toyCurve (some [⟨2, 1, 8⟩, ⟨2, 3, 14⟩, ⟨2, 81, 11⟩]) = Result.ok r ∧
      0 ≤ r ∧ r < (toyCurve.N : Int) ∧
      ((r : Int) : ZMod toyCurve.N)
        = lagrangeAtZero toyCurve.N [⟨2, 1, 8⟩, ⟨2, 3, 14⟩, ⟨2, 81, 11⟩] :=
  c7_reconstruct_lagrange toyCurve toy_lawful.prime [⟨2, 1, 8⟩, ⟨2, 3, 14⟩, ⟨2, 81, 11⟩]
    (by decide) (by decide) (by decide)

/-- C8 (amended): for a lawful curve, `1 ≤ t ≤ n = len(ids)`, a non-negative secret and
non-negative sampled coefficients, `Create` returns `Params` with `Threshold = t` and
`NumShares = n`, exactly `t` commitments and exactly `n` shares of one polynomial: its
coefficient `0` is the secret and coefficient `i ≥ 1` the value sampled for `i`, commitment
`i` is `a_i·G`, and share `j` is `(t, ids[j], f(ids[j]) mod q)` in the order of `ids`. -/
theorem c8_create_outputs (E : Curve) (h : E.Lawful) (rnd : Nat → Int) (hr : ∀ i, 0 ≤ rnd i)
    (t : Int) (ht : 1 ≤ t) (secret : Int) (hs : 0 ≤ secret) (ids : List Int)
    (hn : t ≤ (ids.length : Int)) :
    ∃ pGs shares, Create E rnd t (some secret) (some ids) = Result.ok (pGs, shares) ∧
      pGs.Params = ⟨t, ids.length⟩ ∧ (pGs.PolyG.length : Int) = t ∧
      shares.length = ids.length ∧
      (coefficients rnd t secret).getD 0 0 = secret ∧
      (∀ i : Nat, 1 ≤ i → (i : Int) < t → (coefficients rnd t secret).getD i 0 = rnd i) ∧
      pGs.PolyG = (coefficients rnd t secret).map E.zsmulBase ∧
      shares = ids.map (fun id =>
        ⟨t, id, polyValue (coefficients rnd t secret) id % (E.N : Int)⟩) := by
  refine ⟨_, _, Create_eq E rnd t ht secret ids hn, rfl, ?_, by simp, rfl, ?_, ?_, rfl⟩
  · simpa using coefficients_length rnd t ht secret
  · intro i hi hit
    obtain ⟨k, rfl⟩ : ∃ k, i = k + 1 := ⟨i - 1, by omega⟩
    rw [coefficients, List.getD_cons_succ, List.getD_eq_getElem _ _ (by simp; omega)]
    simp
  · apply List.map_congr_left
    intro a ha
    exact sbm_Bytes_eq_zsmulBase E h a (coefficients_nonneg rnd hr t secret hs a ha)

theorem c8_create_outputs_witness :
    ∃ pGs shares, Create toyCurve (fun _ => 3) 2 (some 5) (some [1, 2, 3])
        = Result.ok (pGs, shares) ∧
      pGs.Params = ⟨2, ([1, 2, 3] : List Int).length⟩ ∧ (pGs.PolyG.length : Int) = 2 ∧
      shares.length = ([1, 2, 3] : List Int).length ∧
      (coefficients (fun _ => 3) 2 5).getD 0 0 = 5 ∧
      (∀ i : Nat, 1 ≤ i → (i : Int) < 2 →
        (coefficients (fun _ => 3) 2 5).getD i 0 = (fun _ => 3) i) ∧
      pGs.PolyG = (coefficients (fun _ => 3) 2 5).map toyCurve.zsmulBase ∧
      shares = ([1, 2, 3] : List Int).map (fun id =>
        ⟨2, id, polyValue (coefficients (fun _ => 3) 2 5) id % (toyCurve.N : Int)⟩) :=
  c8_create_outputs toyCurve toy_lawful (fun _ => 3) (fun _ => by norm_num) 2 (by decide) 5
    (by decide) [1, 2, 3] (by decide)

/-- C8 (counterexample): on the toy curve with `t = 1`, secret `-1` and ids `[1]`, the
commitment `Create` returns is `G`, which is not `(-1)·G`. -/
theorem c8_negative_secret_counterexample :
    ∃ pGs shares, Create toyCurve (fun _ => 1) 1 (some (-1)) (some [1])
        = Result.ok (pGs, shares) ∧
      pGs.PolyG ≠ (coefficients (fun _ => 1) 1 (-1)).map toyCurve.zsmulBase :=
  ⟨⟨⟨1, 1⟩, [(2, 22)]⟩, [⟨1, 1, 78⟩], by decide, by decide!⟩

/-- C9: with `t = 1` `samplePolynomial` returns the secret alone whatever the sampler, and
`Create` gives every share the value `secret mod q`; when `q > 0x2A` is prime, `Create` with
`t = 1`, secret `0x2A` and ids `[1, 2, 3]` emits three shares of value `0x2A` and
`ReConstruct` on the shares with ids `1` and `3` returns `0x2A`. -/
theorem c9_threshold_one_scenario (E : Curve) (hN : Nat.Prime E.N) (rnd : Nat → Int) :
    (∀ (rnd' : Nat → Int) (secret : Int), samplePolynomial rnd' 1 secret = some [secret]) ∧
    (∀ (secret : Int) (ids : List Int), 1 ≤ ids.length →
      ∃ pGs, Create E rnd 1 (some secret) (some ids)
        = Result.ok (pGs, ids.map (fun id => ⟨1, id, secret % (E.N : Int)⟩))) ∧
    (42 < E.N →
      (∃ pGs, Create E rnd 1 (some 42) (some [1, 2, 3])
        = Result.ok (pGs, [⟨1, 1, 42⟩, ⟨1, 2, 42⟩, ⟨1, 3, 42⟩])) ∧
      ReConstruct E (some [⟨1, 1, 42⟩, ⟨1, 3, 42⟩]) = Result.ok 42) := by
  have hNpos : (0 : Int) < E.N := by exact_mod_cast hN.pos
  have hcoef : ∀ secret : Int, coefficients rnd 1 secret = [secret] := fun _ => rfl
  have hval : ∀ secret id : Int, polyValue [secret] id = secret := by
    intro secret id
    rw [polyValue_cons, polyValue_nil]; ring
  have hcreate : ∀ (secret : Int) (ids : List Int), 1 ≤ ids.length →
      ∃ pGs, Create E rnd 1 (some secret) (some ids)
        = Result.ok (pGs, ids.map (fun id => ⟨1, id, secret % (E.N : Int)⟩)) := by
    intro secret ids hlen
    refine ⟨⟨⟨1, ids.length⟩, [E.ScalarBaseMult (Bytes secret)]⟩, ?_⟩
    rw [Create_eq E rnd 1 le_rfl secret ids (by exact_mod_cast hlen)]
    simp only [hcoef, hval, List.map_cons, List.map_nil]
  refine ⟨fun rnd' secret => rfl, hcreate, fun h42 => ?_⟩
  have h42' : (42 : Int) < E.N := by exact_mod_cast h42
  have hmod : (42 : Int) % (E.N : Int) = 42 := Int.emod_eq_of_lt (by norm_num) h42'
  constructor
  · obtain ⟨pGs, hp⟩ := hcreate 42 [1, 2, 3] (by simp)
    refine ⟨pGs, ?_⟩
    rw [hp]
    simp [hmod]
  · have key := ReConstruct_of_poly E hN [⟨1, 1, 42⟩, ⟨1, 3, 42⟩] [42] (by simp)
      (by simp)
      (by
        rw [List.pairwise_pair]
        show (1 : Int) % (E.N : Int) ≠ 3 % (E.N : Int)
        rw [Int.emod_eq_of_lt (by norm_num) (by omega), Int.emod_eq_of_lt (by norm_num) (by omega)]
        norm_num)
      (by simp)
      (by
        intro sh hsh
        rw [hval]
        simp only [List.mem_cons, List.mem_singleton, List.not_mem_nil, or_false] at hsh
        rcases hsh with rfl | rfl <;> rfl)
    rw [key, hval, hmod]

theorem c9_threshold_one_scenario_witness :
    (∃ pGs, Create toyCurve (fun _ => 3) 1 (some 42) (some [1, 2, 3])
      = Result.ok (pGs, [⟨1, 1, 42⟩, ⟨1, 2, 42⟩, ⟨1, 3, 42⟩])) ∧
    ReConstruct toyCurve (some [⟨1, 1, 42⟩, ⟨1, 3, 42⟩]) = Result.ok 42 :=
  (c9_threshold_one_scenario toyCurve toy_lawful.prime (fun _ => 3)).2.2 (by decide)

/-- C10: for a lawful curve, whenever `Verify` accepts a proof `(Alpha, T)` for `X` it
rejects `(Alpha, T + 1)` for the same `X`; and when `q > 7`, the proof `NewZKProof` returns
for `x = 7`, `X = 7·G` and a non-negative nonce is accepted and is rejected once `T` is
replaced by `T + 1`. -/
theorem c10_tampered_response_rejected (E : Curve) (H : Hash) (h : E.Lawful) (hH : H.Lawful) :
    (∀ (pf : ZKProof) (X : Option Point) (T : Int), pf.T = some T →
      ZKProof.Verify E H (some pf) X = some true →
      ZKProof.Verify E H (some ⟨pf.Alpha, some (T + 1)⟩) X = some false) ∧
    (7 < E.N → ∀ a : Int, 0 ≤ a →
      ∃ (Alpha : Point) (T : Int),
        NewZKProof E H a (some 7) (some (ECPoint.ScalarBaseMult E 7))
          = Result.ok ⟨some Alpha, some T⟩ ∧
        ZKProof.Verify E H (some ⟨some Alpha, some T⟩) (some (ECPoint.ScalarBaseMult E 7))
          = some true ∧
        ZKProof.Verify E H (some ⟨some Alpha, some (T + 1)⟩)
          (some (ECPoint.ScalarBaseMult E 7)) = some false) := by
  have hNpos : (0 : Int) < E.N := by exact_mod_cast h.prime.pos
  have hN2 : 2 ≤ E.N := h.prime.two_le
  have htamper : ∀ (Alpha : Point) (T : Int) (X : Point),
      ZKProof.Verify E H (some ⟨some Alpha, some T⟩) (some X) = some true →
      ZKProof.Verify E H (some ⟨some Alpha, some (T + 1)⟩) (some X) = some false := by
    intro Alpha T X hacc
    rw [ZKProof_Verify_eq] at hacc ⊢
    simp only [Option.some.injEq, decide_eq_true_eq] at hacc
    rw [hacc]
    congr 1
    rw [decide_eq_false_iff_not, h.base_eq]
    intro hmod
    have hmod' : ((Bytes T : Nat) : Int) % (E.N : Int) = ((Bytes (T + 1) : Nat) : Int) % (E.N : Int) := by
      exact_mod_cast hmod
    have hdvd := Int.emod_emod_of_dvd
    have hsub : (E.N : Int) ∣ ((Bytes (T + 1) : Nat) : Int) - ((Bytes T : Nat) : Int) :=
      Int.ModEq.dvd hmod'
    have habs : ((Bytes (T + 1) : Nat) : Int) - ((Bytes T : Nat) : Int) = 1 ∨
        ((Bytes (T + 1) : Nat) : Int) - ((Bytes T : Nat) : Int) = -1 := by
      unfold Bytes
      omega
    rcases habs with e | e
    · rw [e] at hsub
      have := Int.le_of_dvd (by norm_num) hsub
      omega
    · rw [e] at hsub
      have := Int.le_of_dvd (by norm_num) ((Int.dvd_neg).1 hsub)
      omega
  refine ⟨?_, ?_⟩
  · intro pf X T hT hacc
    obtain ⟨Alpha, T'⟩ := pf
    simp only at hT
    subst hT
    cases Alpha with
    | none => simp [ZKProof.Verify, ZKProof.ValidateBasic] at hacc
    | some Alpha =>
      cases X with
      | none => simp [ZKProof.Verify, ZKProof.ValidateBasic] at hacc
      | some X => exact htamper Alpha T X hacc
  · intro h7 a ha
    have h7' : (7 : Int) < E.N := by exact_mod_cast h7
    obtain ⟨pf, hpf, hA, hT, hver⟩ := NewZKProof_accepted E H h hH 7 (by norm_num) h7' a ha
    obtain ⟨Alpha, T⟩ := pf
    simp only at hA hT
    subst hA hT
    exact ⟨_, _, hpf, hver, htamper _ _ _ hver⟩

theorem c10_tampered_response_rejected_witness :
    ZKProof.Verify toyCurve toyHash (some ⟨some (46, 40), some (64 + 1)⟩)
        (some (ECPoint.ScalarBaseMult toyCurve 7)) = some false ∧
    ∃ (Alpha : Point) (T : Int),
      NewZKProof toyCurve toyHash 5 (some 7) (some (ECPoint.ScalarBaseMult toyCurve 7))
        = Result.ok ⟨some Alpha, some T⟩ ∧
      ZKProof.Verify toyCurve toyHash (some ⟨some Alpha, some T⟩)
        (some (ECPoint.ScalarBaseMult toyCurve 7)) = some true ∧
      ZKProof.Verify toyCurve toyHash (some ⟨some Alpha, some (T + 1)⟩)
        (some (ECPoint.ScalarBaseMult toyCurve 7)) = some false :=
  ⟨(c10_tampered_response_rejected toyCurve toyHash toy_lawful toy_hash_lawful).1
      ⟨some (46, 40), some 64⟩ (some (ECPoint.ScalarBaseMult toyCurve 7)) 64 rfl (by decide!),
    (c10_tampered_response_rejected toyCurve toyHash toy_lawful toy_hash_lawful).2 (by decide) 5
      (by decide)⟩

/-! ## Helper lemmas for the error paths and tamper detection -/

theorem Create_ids (E : Curve) (rnd : Nat → Int) (t : Int) (ht : 1 ≤ t) (secret : Int)
    (ids : List Int) (hn : t ≤ (ids.length : Int)) :
    ∃ pGs shares, Create E rnd t (some secret) (some ids) = Result.ok (pGs, shares) ∧
      shares = ids.map (fun id =>
        ⟨t, id, polyValue (coefficients rnd t secret) id % (E.N : Int)⟩) ∧
      shares.map (fun s => s.ID) = ids :=
  ⟨_, _, Create_eq E rnd t ht secret ids hn, rfl, by simp [List.map_map, Function.comp_def]⟩

theorem polyValue_modEq (N : Int) (l : List Int) (x y : Int) (hxy : x % N = y % N) :
    polyValue l x % N = polyValue l y % N := by
  induction l with
  | nil => rw [polyValue_nil, polyValue_nil]
  | cons a l ih =>
    rw [polyValue_cons, polyValue_cons]
    exact Int.ModEq.add_left a (Int.ModEq.mul hxy ih)

theorem ReConstruct_nil (E : Curve) : ReConstruct E none = Result.ok 0 := rfl

theorem ReConstruct_empty (E : Curve) : ReConstruct E (some []) = Result.panic := rfl

theorem ReConstruct_below (E : Curve) (s0 : Share) (rest : List Share)
    (hth : s0.Threshold > (((s0 :: rest).length : Nat) : Int)) :
    ReConstruct E (some (s0 :: rest)) = Result.err ErrNumSharesBelowThreshold := by
  unfold ReConstruct
  simp only [hth, if_true]

theorem ReConstruct_err_iff (E : Curve) (shares : Option (List Share)) (msg : String) :
    ReConstruct E shares = Result.err msg ↔
      ∃ s0 rest, shares = some (s0 :: rest) ∧
        s0.Threshold > (((s0 :: rest).length : Nat) : Int) ∧
        msg = ErrNumSharesBelowThreshold := by
  constructor
  · intro hm
    rcases shares with _ | l
    · rw [ReConstruct_nil] at hm
      simp at hm
    · rcases l with _ | ⟨s0, rest⟩
      · rw [ReConstruct_empty] at hm
        simp at hm
      · by_cases hth : s0.Threshold > (((s0 :: rest).length : Nat) : Int)
        · rw [ReConstruct_below E s0 rest hth] at hm
          simp only [Result.err.injEq] at hm
          exact ⟨s0, rest, rfl, hth, hm.symm⟩
        · unfold ReConstruct at hm
          simp only [hth, if_false] at hm
          split at hm <;> simp at hm
  · rintro ⟨s0, rest, rfl, hth, rfl⟩
    exact ReConstruct_below E s0 rest hth

theorem ZKProof_accepts_identity_alpha (E : Curve) (H : Hash) (h : E.Lawful) (hH : H.Lawful)
    (x : Nat) :
    E.IsOnCurve (E.ScalarBaseMult 0) = false ∧
    ZKProof.Verify E H (some ⟨some (E.ScalarBaseMult 0),
        some ((challenge E H [(E.ScalarBaseMult x).1, (E.ScalarBaseMult x).2, E.Gx, E.Gy,
          (E.ScalarBaseMult 0).1, (E.ScalarBaseMult 0).2] * (x : Int)) % (E.N : Int))⟩)
      (some (E.ScalarBaseMult x)) = some true := by
  have hNpos : (0 : Int) < E.N := by exact_mod_cast h.prime.pos
  constructor
  · have := h.base_on 0
    simp only [Nat.zero_mod, ne_eq, not_true_eq_false, iff_false] at this
    simpa using this
  · rw [ZKProof_Verify_eq]
    congr 1
    rw [decide_eq_true_eq]
    set c := challenge E H [(E.ScalarBaseMult x).1, (E.ScalarBaseMult x).2, E.Gx, E.Gy,
      (E.ScalarBaseMult 0).1, (E.ScalarBaseMult 0).2] with hc
    have hc0 : 0 ≤ c := challenge_nonneg E H h.prime.pos hH _
    rw [h.base_mul, h.base_add, sbm_eq_iff E h, cast_Bytes _ _ (Int.emod_nonneg _ hNpos.ne'),
      ZMod.intCast_mod]
    push_cast
    rw [cast_Bytes _ _ hc0]
    ring

theorem ZKVProof_Verify_invalid_alpha (E : Curve) (H : Hash) (pf : ZKVProof) (Alpha : Point)
    (hA : pf.Alpha = some Alpha) (hoff : ECPoint.ValidateBasic E Alpha = false)
    (V R : Option Point) : ZKVProof.Verify E H (some pf) V R = some false := by
  unfold ZKVProof.Verify
  simp [ZKVProof.ValidateBasic, hA, hoff]

theorem NewZKProof_cases (E : Curve) (H : Hash) (a : Int) (x : Option Int) (X : Option Point) :
    ((x = none ∨ X = none ∨ ∃ P, X = some P ∧ ECPoint.ValidateBasic E P = false) ∧
      NewZKProof E H a x X = Result.err "ZKProof constructor received nil or invalid value(s)") ∨
    (¬ (x = none ∨ X = none ∨ ∃ P, X = some P ∧ ECPoint.ValidateBasic E P = false) ∧
      ∃ pf, NewZKProof E H a x X = Result.ok pf) := by
  rcases x with _ | x
  · exact Or.inl ⟨Or.inl rfl, rfl⟩
  · rcases X with _ | P
    · exact Or.inl ⟨Or.inr (Or.inl rfl), rfl⟩
    · by_cases hv : ECPoint.ValidateBasic E P = true
      · refine Or.inr ⟨?_, ?_⟩
        · rintro (h | h | ⟨Q, hQ, hf⟩)
          · exact Option.noConfusion h
          · exact Option.noConfusion h
          · simp only [Option.some.injEq] at hQ
            subst hQ
            rw [hv] at hf
            exact Bool.noConfusion hf
        · unfold NewZKProof
          simp only [hv, Bool.not_true, Bool.false_eq_true, if_false]
          exact ⟨_, rfl⟩
      · have hv' : ECPoint.ValidateBasic E P = false := by simpa using hv
        refine Or.inl ⟨Or.inr (Or.inr ⟨P, rfl, hv'⟩), ?_⟩
        unfold NewZKProof
        simp only [hv', Bool.not_false, if_true]

theorem NewZKVProof_cases (E : Curve) (H : Hash) (a b : Int) (V R : Option Point)
    (s l : Option Int) :
    ((V = none ∨ R = none ∨ s = none ∨ l = none ∨
        (∃ P, V = some P ∧ ECPoint.ValidateBasic E P = false) ∨
        (∃ P, R = some P ∧ ECPoint.ValidateBasic E P = false)) ∧
      NewZKVProof E H a b V R s l = Result.err "ZKVProof constructor received nil value(s)") ∨
    (¬ (V = none ∨ R = none ∨ s = none ∨ l = none ∨
        (∃ P, V = some P ∧ ECPoint.ValidateBasic E P = false) ∨
        (∃ P, R = some P ∧ ECPoint.ValidateBasic E P = false)) ∧
      ∃ pf, NewZKVProof E H a b V R s l = Result.ok pf) := by
  rcases V with _ | V
  · exact Or.inl ⟨Or.inl rfl, rfl⟩
  rcases R with _ | R
  · exact Or.inl ⟨Or.inr (Or.inl rfl), rfl⟩
  rcases s with _ | s
  · exact Or.inl ⟨Or.inr (Or.inr (Or.inl rfl)), rfl⟩
  rcases l with _ | l
  · exact Or.inl ⟨Or.inr (Or.inr (Or.inr (Or.inl rfl))), rfl⟩
  by_cases hV : ECPoint.ValidateBasic E V = true
  · by_cases hR : ECPoint.ValidateBasic E R = true
    · refine Or.inr ⟨?_, ?_⟩
      · rintro (h | h | h | h | ⟨Q, hQ, hf⟩ | ⟨Q, hQ, hf⟩)
        · exact Option.noConfusion h
        · exact Option.noConfusion h
        · exact Option.noConfusion h
        · exact Option.noConfusion h
        · simp only [Option.some.injEq] at hQ
          subst hQ
          rw [hV] at hf
          exact Bool.noConfusion hf
        · simp only [Option.some.injEq] at hQ
          subst hQ
          rw [hR] at hf
          exact Bool.noConfusion hf
      · unfold NewZKVProof
        simp only [hV, hR, Bool.not_true, Bool.or_self, Bool.false_eq_true, if_false]
        exact ⟨_, rfl⟩
    · have hR' : ECPoint.ValidateBasic E R = false := by simpa using hR
      refine Or.inl ⟨Or.inr (Or.inr (Or.inr (Or.inr (Or.inr ⟨R, rfl, hR'⟩)))), ?_⟩
      unfold NewZKVProof
      simp [hR']
  · have hV' : ECPoint.ValidateBasic E V = false := by simpa using hV
    refine Or.inl ⟨Or.inr (Or.inr (Or.inr (Or.inr (Or.inl ⟨V, rfl, hV'⟩)))), ?_⟩
    unfold NewZKVProof
    simp [hV']

/-- The range contract of the transcript hash does not decide what happens when `X` or
`Alpha` is replaced: for the toy hash (a lawful hash, not SHA-512/256), `Verify` on the toy
curve accepts `(5·G, 64)` for `X = 7·G` and also accepts it with `Alpha` replaced by
`8·G = (21, 42)` or with `X` replaced by `31·G = (48, 7)`. Rejection of a replaced `X` or
`Alpha` is therefore a property of the hash, which the arithmetic of `Verify` alone does not
give. -/
theorem Verify_replaced_point_hash_dependent :
    ∃ H : Hash, H.Lawful ∧
      ZKProof.Verify toyCurve H (some ⟨some (46, 40), some 64⟩)
        (some (toyCurve.ScalarBaseMult 7)) = some true ∧
      (((21, 42) : Point) ≠ (46, 40) ∧
        ZKProof.Verify toyCurve H (some ⟨some (21, 42), some 64⟩)
          (some (toyCurve.ScalarBaseMult 7)) = some true) ∧
      (((48, 7) : Point) ≠ toyCurve.ScalarBaseMult 7 ∧
        ZKProof.Verify toyCurve H (some ⟨some (46, 40), some 64⟩)
          (some (48, 7)) = some true) :=
  ⟨toyHash, toy_hash_lawful, by decide!⟩

/-! ## Claims C11..C20 -/

/-- C12 (amended): duplicate ids are not rejected up front. `Create` makes no check on the
ids: for `1 ≤ t ≤ n` it returns one share per id in the order of `ids`, also when ids
repeat, and shares with equal ids are equal. The only error `ReConstruct` returns is
`ErrNumSharesBelowThreshold`, exactly when the list is non-empty and the threshold of its
first share exceeds its length. -/
theorem c12_no_duplicate_check (E : Curve) (rnd : Nat → Int) :
    (∀ (t secret : Int) (ids : List Int), 1 ≤ t → t ≤ (ids.length : Int) →
      ∃ pGs shares, Create E rnd t (some secret) (some ids) = Result.ok (pGs, shares) ∧
        shares.map (fun s => s.ID) = ids ∧
        ∀ s ∈ shares, ∀ s' ∈ shares, s.ID = s'.ID → s = s') ∧
    (∀ (shares : Option (List Share)) (msg : String),
      ReConstruct E shares = Result.err msg ↔
        ∃ s0 rest, shares = some (s0 :: rest) ∧
          s0.Threshold > (((s0 :: rest).length : Nat) : Int) ∧
          msg = ErrNumSharesBelowThreshold) := by
  refine ⟨?_, ReConstruct_err_iff E⟩
  intro t secret ids ht hn
  obtain ⟨pGs, shares, hc, hsh, hids⟩ := Create_ids E rnd t ht secret ids hn
  refine ⟨pGs, shares, hc, hids, ?_⟩
  intro s hs s' hs' hid
  rw [hsh] at hs hs'
  obtain ⟨id, -, rfl⟩ := List.mem_map.1 hs
  obtain ⟨id', -, rfl⟩ := List.mem_map.1 hs'
  simp only at hid
  rw [hid]

theorem c12_no_duplicate_check_witness :
    (∃ pGs shares, Create toyCurve (fun _ => 3) 1 (some 5) (some [1, 1])
        = Result.ok (pGs, shares) ∧
      shares.map (fun s => s.ID) = [1, 1] ∧
      ∀ s ∈ shares, ∀ s' ∈ shares, s.ID = s'.ID → s = s') ∧
    ReConstruct toyCurve (some [⟨3, 1, 5⟩, ⟨3, 2, 6⟩])
      = Result.err ErrNumSharesBelowThreshold :=
  ⟨(c12_no_duplicate_check toyCurve (fun _ => 3)).1 1 5 [1, 1] (by decide) (by decide),
    ((c12_no_duplicate_check toyCurve (fun _ => 3)).2 _ _).2
      ⟨⟨3, 1, 5⟩, [⟨3, 2, 6⟩], rfl, by decide, rfl⟩⟩

/-- C12 (counterexample): on the toy curve with `t = 1`, `Create` on the id list `[1, 1]`
returns shares and no error, and `ReConstruct` on the two returned shares (same id) returns
no error: it panics on the nil inverse of `x_j - x_i = 0`. -/
theorem c12_duplicate_ids_counterexample :
    Create toyCurve (fun _ => 3) 1 (some 5) (some [1, 1])
      = Result.ok (⟨⟨1, 2⟩, [toyCurve.ScalarBaseMult 5]⟩, [⟨1, 1, 5⟩, ⟨1, 1, 5⟩]) ∧
    ReConstruct toyCurve (some [⟨1, 1, 5⟩, ⟨1, 1, 5⟩]) = Result.panic := by
  decide!

/-- C13 (amended): `Create` does not check the ids: for `1 ≤ t ≤ n` the emitted shares carry
the ids passed in, unchanged and in order, so every emitted share has an ID that is non-zero
modulo `q` exactly when every id passed in is, and a share whose id is zero modulo `q` has
the value `secret mod q`, the evaluation `f(0)`. -/
theorem c13_share_ids_are_inputs (E : Curve) (rnd : Nat → Int) (t secret : Int)
    (ids : List Int) (ht : 1 ≤ t) (hn : t ≤ (ids.length : Int)) :
    ∃ pGs shares, Create E rnd t (some secret) (some ids) = Result.ok (pGs, shares) ∧
      shares.map (fun s => s.ID) = ids ∧
      ((∀ s ∈ shares, s.ID % (E.N : Int) ≠ 0) ↔ (∀ id ∈ ids, id % (E.N : Int) ≠ 0)) ∧
      (∀ s ∈ shares, s.ID % (E.N : Int) = 0 → s.Share = secret % (E.N : Int)) := by
  obtain ⟨pGs, shares, hc, hsh, hids⟩ := Create_ids E rnd t ht secret ids hn
  refine ⟨pGs, shares, hc, hids, ?_, ?_⟩
  · constructor
    · intro hall id hid
      rw [← hids] at hid
      obtain ⟨s, hs, rfl⟩ := List.mem_map.1 hid
      exact hall s hs
    · intro hall s hs
      exact hall s.ID (by rw [← hids]; exact List.mem_map_of_mem _ hs)
  · intro s hs hz
    rw [hsh] at hs
    obtain ⟨id, -, rfl⟩ := List.mem_map.1 hs
    simp only at hz ⊢
    rw [polyValue_modEq (E.N : Int) _ id 0 (by simpa using hz), coefficients, polyValue_zero]

theorem c13_share_ids_are_inputs_witness :
    ∃ pGs shares, Create toyCurve (fun _ => 3) 2 (some 5) (some [0, 1, 79])
        = Result.ok (pGs, shares) ∧
      shares.map (fun s => s.ID) = [0, 1, 79] ∧
      ((∀ s ∈ shares, s.ID % (toyCurve.N : Int) ≠ 0) ↔
        (∀ id ∈ ([0, 1, 79] : List Int), id % (toyCurve.N : Int) ≠ 0)) ∧
      (∀ s ∈ shares, s.ID % (toyCurve.N : Int) = 0 → s.Share = 5 % (toyCurve.N : Int)) :=
  c13_share_ids_are_inputs toyCurve (fun _ => 3) 2 5 [0, 1, 79] (by decide) (by decide)

/-- C13 (counterexample): on the toy curve with `t = 2`, secret `5` and ids `[0, 1]`,
`Create` emits a share whose ID is `0`, and its value is the secret `5`. -/
theorem c13_zero_id_counterexample :
    ∃ pGs shares, Create toyCurve (fun _ => 3) 2 (some 5) (some [0, 1])
        = Result.ok (pGs, shares) ∧
      ∃ s ∈ shares, s.ID % (toyCurve.N : Int) = 0 ∧ s.Share = 5 :=
  ⟨⟨⟨2, 2⟩, [(46, 40), (62, 63)]⟩, [⟨2, 0, 5⟩, ⟨2, 1, 8⟩], by decide!, ⟨2, 0, 5⟩,
    by decide, by decide, rfl⟩

/-- C14: for every non-nil secret and every non-nil id list with fewer than `t` entries,
`Create` returns `ErrNumSharesBelowThreshold`, with neither commitments nor shares. -/
theorem c14_create_below_threshold (E : Curve) (rnd : Nat → Int) (t secret : Int)
    (ids : List Int) (hlt : (ids.length : Int) < t) :
    Create E rnd t (some secret) (some ids) = Result.err ErrNumSharesBelowThreshold := by
  unfold Create
  simp only [hlt, if_true]

theorem c14_create_below_threshold_witness :
    Create toyCurve (fun _ => 3) 3 (some 5) (some [1, 2])
      = Result.err ErrNumSharesBelowThreshold :=
  c14_create_below_threshold toyCurve (fun _ => 3) 3 5 [1, 2] (by decide)

/-- C15 (amended): for every non-empty list of fewer than `t` shares whose `Threshold`
fields all equal `t`, `ReConstruct` returns `ErrNumSharesBelowThreshold` and no secret. -/
theorem c15_reconstruct_below_threshold (E : Curve) (t : Int) (l : List Share) (hne : l ≠ [])
    (hth : ∀ s ∈ l, s.Threshold = t) (hlt : (l.length : Int) < t) :
    ReConstruct E (some l) = Result.err ErrNumSharesBelowThreshold := by
  obtain ⟨s0, rest, rfl⟩ := List.exists_cons_of_ne_nil hne
  apply ReConstruct_below
  rw [hth s0 (List.mem_cons_self _ _)]
  exact hlt

theorem c15_reconstruct_below_threshold_witness :
    ReConstruct toyCurve (some [⟨3, 1, 5⟩, ⟨3, 2, 6⟩])
      = Result.err ErrNumSharesBelowThreshold :=
  c15_reconstruct_below_threshold toyCurve 3 [⟨3, 1, 5⟩, ⟨3, 2, 6⟩] (by decide) (by decide)
    (by decide)

/-- C15 (counterexample): the empty list has fewer than `t = 1` shares, all with threshold
`1`, yet `ReConstruct` returns no `ErrNumSharesBelowThreshold` on it: as an empty non-nil
slice it panics on `shares[0]`, and as a nil slice it returns `0` and no error. -/
theorem c15_empty_list_counterexample :
    (∀ s ∈ ([] : List Share), s.Threshold = 1) ∧ ((([] : List Share).length : Int) < 1) ∧
    ReConstruct toyCurve (some []) = Result.panic ∧
    ReConstruct toyCurve none = Result.ok 0 := by
  decide

/-- C16: whatever the threshold, `Create` returns the nil-input error, with neither
commitments nor shares, when the secret is nil or the id list is nil; this check comes
first, so also a nil or too-short id list gives this error and not
`ErrNumSharesBelowThreshold`. -/
theorem c16_create_nil_inputs (E : Curve) (rnd : Nat → Int) (t : Int) (secret : Option Int)
    (ids : Option (List Int)) (hnil : secret = none ∨ ids = none) :
    Create E rnd t secret ids = Result.err "vss secret or indexes == nil" ∧
      Create E rnd t secret ids ≠ Result.err ErrNumSharesBelowThreshold := by
  have hc : Create E rnd t secret ids = Result.err "vss secret or indexes == nil" := by
    rcases hnil with rfl | rfl
    · rfl
    · cases secret <;> rfl
  rw [hc]
  exact ⟨rfl, by decide⟩

theorem c16_create_nil_inputs_witness :
    Create toyCurve (fun _ => 3) 5 none (some [1, 2])
        = Result.err "vss secret or indexes == nil" ∧
      Create toyCurve (fun _ => 3) 5 none (some [1, 2])
        ≠ Result.err ErrNumSharesBelowThreshold :=
  c16_create_nil_inputs toyCurve (fun _ => 3) 5 none (some [1, 2]) (Or.inl rfl)

/-- C17 (amended): `ReConstruct` called on a nil share list returns the secret `0` and no
error: the threshold check is skipped for nil and both loops run zero times. -/
theorem c17_reconstruct_nil (E : Curve) : ReConstruct E none = Result.ok 0 :=
  ReConstruct_nil E

/-- C17 (counterexample): on the toy curve `ReConstruct` on nil returns no error. -/
theorem c17_reconstruct_nil_counterexample :
    ¬ ∃ msg, ReConstruct toyCurve none = Result.err msg := by
  rintro ⟨msg, hm⟩
  rw [ReConstruct_nil] at hm
  exact Result.noConfusion hm

/-- C18 (failing input): on the toy curve (`q = 79`) with the toy hash and `X = 7·G`,
`ZKProof.Verify` returns true for the proof `(Alpha = (4, 4), T = 13)` whose `Alpha` is not
on the curve, and for `(Alpha = (0, 0), T = 10)` whose `Alpha` is the point at infinity,
while `ZKVProof.Verify` returns false for proofs with these `Alpha`. -/
theorem c18_zkproof_accepts_invalid_alpha :
    (ECPoint.ValidateBasic toyCurve (4, 4) = false ∧
      ZKProof.Verify toyCurve toyHash (some ⟨some (4, 4), some 13⟩)
        (some (toyCurve.ScalarBaseMult 7)) = some true) ∧
    (ECPoint.ValidateBasic toyCurve (0, 0) = false ∧
      ZKProof.Verify toyCurve toyHash (some ⟨some (0, 0), some 10⟩)
        (some (toyCurve.ScalarBaseMult 7)) = some true) ∧
    ZKVProof.Verify toyCurve toyHash (some ⟨some (4, 4), some 13, some 0⟩)
      (some (toyCurve.ScalarBaseMult 7)) (some (toyCurve.ScalarBaseMult 1)) = some false ∧
    ZKVProof.Verify toyCurve toyHash (some ⟨some (0, 0), some 10, some 0⟩)
      (some (toyCurve.ScalarBaseMult 7)) (some (toyCurve.ScalarBaseMult 1)) = some false := by
  decide!

/-- C19: `ZKProof.Verify` and `ZKVProof.Verify` return false, without panicking, when the
proof is nil or one of its fields is nil (`Alpha` or `T`; `Alpha`, `T` or `U`), for every
argument point, nil included. -/
theorem c19_nil_proof_rejected (E : Curve) (H : Hash) :
    (∀ X : Option Point, ZKProof.Verify E H none X = some false) ∧
    (∀ (pf : ZKProof) (X : Option Point), pf.Alpha = none ∨ pf.T = none →
      ZKProof.Verify E H (some pf) X = some false) ∧
    (∀ V R : Option Point, ZKVProof.Verify E H none V R = some false) ∧
    (∀ (pf : ZKVProof) (V R : Option Point), pf.Alpha = none ∨ pf.T = none ∨ pf.U = none →
      ZKVProof.Verify E H (some pf) V R = some false) := by
  refine ⟨fun X => rfl, ?_, fun V R => rfl, ?_⟩
  · intro pf X hnil
    unfold ZKProof.Verify
    rcases hnil with h | h <;> simp [ZKProof.ValidateBasic, h]
  · intro pf V R hnil
    unfold ZKVProof.Verify
    rcases hnil with h | h | h <;> simp [ZKVProof.ValidateBasic, h]

theorem c19_nil_proof_rejected_witness :
    ZKProof.Verify toyCurve toyHash none none = some false ∧
    ZKProof.Verify toyCurve toyHash (some ⟨some (2, 22), none⟩) (some (2, 22)) = some false ∧
    ZKVProof.Verify toyCurve toyHash none (some (2, 22)) none = some false ∧
    ZKVProof.Verify toyCurve toyHash (some ⟨some (2, 22), some 1, none⟩) none (some (2, 22))
      = some false :=
  ⟨(c19_nil_proof_rejected toyCurve toyHash).1 none,
    (c19_nil_proof_rejected toyCurve toyHash).2.1 ⟨some (2, 22), none⟩ (some (2, 22))
      (Or.inr rfl),
    (c19_nil_proof_rejected toyCurve toyHash).2.2.1 (some (2, 22)) none,
    (c19_nil_proof_rejected toyCurve toyHash).2.2.2 ⟨some (2, 22), some 1, none⟩ none
      (some (2, 22)) (Or.inr (Or.inr rfl))⟩

/-- C20: `NewZKProof` returns an error (and so no proof) exactly when `x` is nil, `X` is nil
or `X` fails `ValidateBasic`, and a proof and no error exactly in every other case;
`NewZKVProof` returns an error exactly when one of `V`, `R`, `s`, `l` is nil or `V` or `R`
fails `ValidateBasic`, and a proof and no error exactly in every other case. -/
theorem c20_constructor_errors (E : Curve) (H : Hash) :
    (∀ (a : Int) (x : Option Int) (X : Option Point),
      ((∃ msg, NewZKProof E H a x X = Result.err msg) ↔
        (x = none ∨ X = none ∨ ∃ P, X = some P ∧ ECPoint.ValidateBasic E P = false)) ∧
      ((∃ pf, NewZKProof E H a x X = Result.ok pf) ↔
        ¬ (x = none ∨ X = none ∨ ∃ P, X = some P ∧ ECPoint.ValidateBasic E P = false))) ∧
    (∀ (a b : Int) (V R : Option Point) (s l : Option Int),
      ((∃ msg, NewZKVProof E H a b V R s l = Result.err msg) ↔
        (V = none ∨ R = none ∨ s = none ∨ l = none ∨
          (∃ P, V = some P ∧ ECPoint.ValidateBasic E P = false) ∨
          (∃ P, R = some P ∧ ECPoint.ValidateBasic E P = false))) ∧
      ((∃ pf, NewZKVProof E H a b V R s l = Result.ok pf) ↔
        ¬ (V = none ∨ R = none ∨ s = none ∨ l = none ∨
          (∃ P, V = some P ∧ ECPoint.ValidateBasic E P = false) ∨
          (∃ P, R = some P ∧ ECPoint.ValidateBasic E P = false)))) := by
  constructor
  · intro a x X
    rcases NewZKProof_cases E H a x X with ⟨hc, he⟩ | ⟨hc, pf, hp⟩
    · refine ⟨⟨fun _ => hc, fun _ => ⟨_, he⟩⟩, ⟨?_, fun hn => absurd hc hn⟩⟩
      rintro ⟨pf, hp⟩
      rw [he] at hp
      exact Result.noConfusion hp
    · refine ⟨⟨?_, fun h => absurd h hc⟩, ⟨fun _ => hc, fun _ => ⟨pf, hp⟩⟩⟩
      rintro ⟨msg, hm⟩
      rw [hp] at hm
      exact Result.noConfusion hm
  · intro a b V R s l
    rcases NewZKVProof_cases E H a b V R s l with ⟨hc, he⟩ | ⟨hc, pf, hp⟩
    · refine ⟨⟨fun _ => hc, fun _ => ⟨_, he⟩⟩, ⟨?_, fun hn => absurd hc hn⟩⟩
      rintro ⟨pf, hp⟩
      rw [he] at hp
      exact Result.noConfusion hp
    · refine ⟨⟨?_, fun h => absurd h hc⟩, ⟨fun _ => hc, fun _ => ⟨pf, hp⟩⟩⟩
      rintro ⟨msg, hm⟩
      rw [hp] at hm
      exact Result.noConfusion hm

theorem c20_constructor_errors_witness :
    (∃ msg, NewZKProof toyCurve toyHash 5 (some 7) (some (0, 0)) = Result.err msg) ∧
    (∃ pf, NewZKProof toyCurve toyHash 5 (some 7) (some (2, 22)) = Result.ok pf) ∧
    (∃ msg, NewZKVProof toyCurve toyHash 4 6 (some (2, 22)) (some (1, 1)) (some 3) (some 2)
      = Result.err msg) ∧
    (∃ pf, NewZKVProof toyCurve toyHash 4 6 (some (2, 22)) (some (52, 7)) (some 3) (some 2)
      = Result.ok pf) :=
  ⟨(((c20_constructor_errors toyCurve toyHash).1 5 (some 7) (some (0, 0))).1).2
      (Or.inr (Or.inr ⟨(0, 0), rfl, by decide⟩)),
    (((c20_constructor_errors toyCurve toyHash).1 5 (some 7) (some (2, 22))).2).2
      (by decide),
    (((c20_constructor_errors toyCurve toyHash).2 4 6 (some (2, 22)) (some (1, 1)) (some 3)
      (some 2)).1).2 (Or.inr (Or.inr (Or.inr (Or.inr (Or.inr ⟨(1, 1), rfl, by decide⟩))))),
    (((c20_constructor_errors toyCurve toyHash).2 4 6 (some (2, 22)) (some (52, 7)) (some 3)
      (some 2)).2).2 (by decide)⟩

/-! ## Helper lemmas for the regroup party and the order of shares -/

theorem storeAt_eq (buf : List (Option Message)) (i : Int) (msg : Message) (h0 : 0 ≤ i)
    (h1 : i < (buf.length : Int)) :
    storeAt buf i msg = some (buf.set i.toNat (some msg)) ∧
      (buf.set i.toNat (some msg)).length = buf.length ∧
      (buf.set i.toNat (some msg))[i.toNat]? = some (some msg) ∧
      ∀ j : Nat, j ≠ i.toNat → (buf.set i.toNat (some msg))[j]? = buf[j]? := by
  have hlt : i.toNat < buf.length := by omega
  refine ⟨?_, List.length_set _ _ _, ?_, ?_⟩
  · unfold storeAt
    rw [if_pos ⟨h0, h1⟩]
  · rw [List.getElem?_set_self hlt]
  · intro j hj
    rw [List.getElem?_set_ne (Ne.symm hj)]

theorem StoreMessage_error_nil (p p' : LocalParty) (msg : Message) (b : Bool)
    (e : Option Error) (h : p.StoreMessage msg = some (p', b, e)) : e = none := by
  unfold LocalParty.StoreMessage at h
  simp only at h
  split at h
  all_goals first
    | (split at h
       · exact Option.noConfusion h
       · simp only [Option.some.injEq, Prod.mk.injEq] at h
         exact h.2.2.symm)
    | (simp only [Option.some.injEq, Prod.mk.injEq] at h
       exact h.2.2.symm)

theorem sum_range_getD {α M : Type} [AddCommMonoid M] (F : α → M) (d : α) (l : List α) :
    ∑ i in Finset.range l.length, F (l.getD i d) = (l.map F).sum := by
  induction l with
  | nil => simp
  | cons a l ih =>
    rw [List.length_cons, Finset.sum_range_succ', List.map_cons, List.sum_cons, add_comm]
    simp only [List.getD_cons_succ, List.getD_cons_zero]
    rw [ih]

theorem prod_range_getD {α M : Type} [CommMonoid M] (F : α → M) (d : α) (l : List α) :
    ∏ i in Finset.range l.length, F (l.getD i d) = (l.map F).prod := by
  induction l with
  | nil => simp
  | cons a l ih =>
    rw [List.length_cons, Finset.prod_range_succ', List.map_cons, List.prod_cons, mul_comm]
    simp only [List.getD_cons_succ, List.getD_cons_zero]
    rw [ih]

/-- With pairwise distinct ids the Lagrange value of a share list is a sum over the shares
of products over the shares, with no reference to positions. -/
theorem lagrangeAtZero_eq_list (N : Nat) (l : List Share)
    (hd : l.Pairwise (fun a b => a.ID % (N : Int) ≠ b.ID % (N : Int))) :
    lagrangeAtZero N l = (l.map (fun sh => ((sh.Share : Int) : ZMod N) *
      (l.map (fun sh' => if ((sh'.ID : Int) : ZMod N) = ((sh.ID : Int) : ZMod N) then 1
        else ((sh'.ID : Int) : ZMod N) *
          (((sh'.ID : Int) : ZMod N) - ((sh.ID : Int) : ZMod N))⁻¹)).prod)).sum := by
  rw [← sum_range_getD _ (⟨0, 0, 0⟩ : Share) l, lagrangeAtZero]
  apply Finset.sum_congr rfl
  intro i hi
  have hi' : i < l.length := Finset.mem_range.1 hi
  rw [getD_map_ID l i hi', getD_map_Share l i hi', List.getD_eq_getElem _ _ hi']
  congr 1
  rw [← prod_range_getD _ (⟨0, 0, 0⟩ : Share) l, lagrangeCoeff, List.length_map,
    ← Finset.filter_ne' (Finset.range l.length) i, Finset.prod_filter]
  apply Finset.prod_congr rfl
  intro j hj
  have hj' : j < l.length := Finset.mem_range.1 hj
  rw [getD_map_ID l j hj', List.getD_eq_getElem _ _ hj']
  by_cases hji : j = i
  · subst hji
    simp
  · rw [if_pos hji, if_neg (ids_distinct N l hd j i hj' hi' hji)]

theorem lagrangeAtZero_perm (N : Nat) (l l' : List Share) (hp : l.Perm l')
    (hd : l.Pairwise (fun a b => a.ID % (N : Int) ≠ b.ID % (N : Int))) :
    lagrangeAtZero N l' = lagrangeAtZero N l := by
  have hd' : l'.Pairwise (fun a b => a.ID % (N : Int) ≠ b.ID % (N : Int)) :=
    (hp.pairwise_iff (fun h => Ne.symm h)).1 hd
  rw [lagrangeAtZero_eq_list N l hd, lagrangeAtZero_eq_list N l' hd']
  have hinner : ∀ sh : Share,
      (l'.map (fun sh' => if ((sh'.ID : Int) : ZMod N) = ((sh.ID : Int) : ZMod N) then 1
        else ((sh'.ID : Int) : ZMod N) *
          (((sh'.ID : Int) : ZMod N) - ((sh.ID : Int) : ZMod N))⁻¹)).prod
      = (l.map (fun sh' => if ((sh'.ID : Int) : ZMod N) = ((sh.ID : Int) : ZMod N) then 1
        else ((sh'.ID : Int) : ZMod N) *
          (((sh'.ID : Int) : ZMod N) - ((sh.ID : Int) : ZMod N))⁻¹)).prod :=
    fun sh => ((hp.map _).prod_eq).symm
  simp only [hinner]
  exact ((hp.map _).sum_eq).symm

theorem ReConstruct_perm (E : Curve) (hN : Nat.Prime E.N) (t : Int) (l l' : List Share)
    (hp : l.Perm l') (hth : ∀ s ∈ l, s.Threshold = t)
    (hd : l.Pairwise (fun a b => a.ID % (E.N : Int) ≠ b.ID % (E.N : Int))) :
    ReConstruct E (some l') = ReConstruct E (some l) := by
  have hd' : l'.Pairwise (fun a b => a.ID % (E.N : Int) ≠ b.ID % (E.N : Int)) :=
    (hp.pairwise_iff (fun h => Ne.symm h)).1 hd
  have hlen : l'.length = l.length := hp.length_eq.symm
  rcases l with _ | ⟨s0, rest⟩
  · rw [List.nil_perm] at hp
    rw [hp]
  · rcases l' with _ | ⟨s0', rest'⟩
    · simp at hlen
    · have h0 : s0.Threshold = t := hth s0 (List.mem_cons_self _ _)
      have h0' : s0'.Threshold = t :=
        hth s0' (hp.symm.subset (List.mem_cons_self _ _))
      by_cases hgt : t > (((s0 :: rest).length : Nat) : Int)
      · rw [ReConstruct_below E s0 rest (by rw [h0]; exact hgt),
          ReConstruct_below E s0' rest' (by rw [h0', hlen]; exact hgt)]
      · obtain ⟨r, hr, hr0, hr1, hrc⟩ := ReConstruct_lagrange E hN (s0 :: rest) (by simp)
          (by simp only [List.head_cons]; rw [h0]; omega) hd
        obtain ⟨r', hr', hr0', hr1', hrc'⟩ := ReConstruct_lagrange E hN (s0' :: rest') (by simp)
          (by simp only [List.head_cons]; rw [h0', hlen]; omega) hd'
        rw [hr, hr']
        congr 1
        rw [lagrangeAtZero_perm E.N _ _ hp hd, ← hrc, ZMod.intCast_eq_intCast_iff',
          Int.emod_eq_of_lt hr0' hr1', Int.emod_eq_of_lt hr0 hr1] at hrc'
        exact hrc'

/-! ## Claims C21..C30 -/

/-- C21: for each of the four regroup message types and a sender index inside the buffer of
that type, `StoreMessage` returns `(true, nil)` and the party it leaves is the old party
with that one buffer replaced: the new buffer has the same length, holds the message at the
sender's index and is unchanged at every other index. -/
theorem c21_store_message_files (p : LocalParty) (msg : Message)
    (h0 : 0 ≤ msg.From.Index) :
    (msg.MsgType = MessageType.DGRound1OldCommitteeCommitMessage →
      msg.From.Index
        < (p.temp.LocalPartyMessageStore.dgRound1OldCommitteeCommitMessages.length : Int) →
      ∃ buf, p.StoreMessage msg = some ({ p with temp := { p.temp with
          LocalPartyMessageStore := { p.temp.LocalPartyMessageStore with
            dgRound1OldCommitteeCommitMessages := buf } } }, true, none) ∧
        buf.length = p.temp.LocalPartyMessageStore.dgRound1OldCommitteeCommitMessages.length ∧
        buf[msg.From.Index.toNat]? = some (some msg) ∧
        ∀ j : Nat, j ≠ msg.From.Index.toNat →
          buf[j]? = p.temp.LocalPartyMessageStore.dgRound1OldCommitteeCommitMessages[j]?) ∧
    (msg.MsgType = MessageType.DGRound2NewCommitteeACKMessage →
      msg.From.Index
        < (p.temp.LocalPartyMessageStore.dgRound2NewCommitteeACKMessage.length : Int) →
      ∃ buf, p.StoreMessage msg = some ({ p with temp := { p.temp with
          LocalPartyMessageStore := { p.temp.LocalPartyMessageStore with
            dgRound2NewCommitteeACKMessage := buf } } }, true, none) ∧
        buf.length = p.temp.LocalPartyMessageStore.dgRound2NewCommitteeACKMessage.length ∧
        buf[msg.From.Index.toNat]? = some (some msg) ∧
        ∀ j : Nat, j ≠ msg.From.Index.toNat →
          buf[j]? = p.temp.LocalPartyMessageStore.dgRound2NewCommitteeACKMessage[j]?) ∧
    (msg.MsgType = MessageType.DGRound3ShareMessage →
      msg.From.Index < (p.temp.LocalPartyMessageStore.dgRound3ShareMessage.length : Int) →
      ∃ buf, p.StoreMessage msg = some ({ p with temp := { p.temp with
          LocalPartyMessageStore := { p.temp.LocalPartyMessageStore with
            dgRound3ShareMessage := buf } } }, true, none) ∧
        buf.length = p.temp.LocalPartyMessageStore.dgRound3ShareMessage.length ∧
        buf[msg.From.Index.toNat]? = some (some msg) ∧
        ∀ j : Nat, j ≠ msg.From.Index.toNat →
          buf[j]? = p.temp.LocalPartyMessageStore.dgRound3ShareMessage[j]?) ∧
    (msg.MsgType = MessageType.DGRound3DeCommitMessage →
      msg.From.Index < (p.temp.LocalPartyMessageStore.dgRound3DeCommitMessage.length : Int) →
      ∃ buf, p.StoreMessage msg = some ({ p with temp := { p.temp with
          LocalPartyMessageStore := { p.temp.LocalPartyMessageStore with
            dgRound3DeCommitMessage := buf } } }, true, none) ∧
        buf.length = p.temp.LocalPartyMessageStore.dgRound3DeCommitMessage.length ∧
        buf[msg.From.Index.toNat]? = some (some msg) ∧
        ∀ j : Nat, j ≠ msg.From.Index.toNat →
          buf[j]? = p.temp.LocalPartyMessageStore.dgRound3DeCommitMessage[j]?) := by
  refine ⟨?_, ?_, ?_, ?_⟩
  all_goals
    intro ht h1
    obtain ⟨hs, hl, hg, ho⟩ := storeAt_eq _ _ msg h0 h1
    refine ⟨_, ?_, hl, hg, ho⟩
    unfold LocalParty.StoreMessage
    simp only [ht, hs]

theorem c21_store_message_files_witness :
    ∃ buf, LocalParty.StoreMessage
        ⟨none, [], ⟨⟨[none, none], [none], [none, none], [none, none]⟩, [], [], [], []⟩,
          ⟨none, none, none, [], []⟩, []⟩
        ⟨⟨"a", "a", 1, []⟩, none, MessageType.DGRound3ShareMessage, [7]⟩
      = some (⟨none, [], ⟨⟨[none, none], [none], buf, [none, none]⟩, [], [], [], []⟩,
          ⟨none, none, none, [], []⟩, []⟩, true, none) ∧
      buf.length = 2 ∧
      buf[(1 : Int).toNat]?
        = some (some ⟨⟨"a", "a", 1, []⟩, none, MessageType.DGRound3ShareMessage, [7]⟩) ∧
      ∀ j : Nat, j ≠ (1 : Int).toNat → buf[j]? = ([none, none] : List (Option Message))[j]? :=
  (c21_store_message_files
    ⟨none, [], ⟨⟨[none, none], [none], [none, none], [none, none]⟩, [], [], [], []⟩,
      ⟨none, none, none, [], []⟩, []⟩
    ⟨⟨"a", "a", 1, []⟩, none, MessageType.DGRound3ShareMessage, [7]⟩ (by decide)).2.2.1 rfl
    (by decide)

/-- C22: for a message of any type other than the four regroup types `StoreMessage`
returns `(false, nil)` and leaves the party, and with it every inbox buffer, unchanged; and
whenever `StoreMessage` returns, the error it returns is nil. -/
theorem c22_unknown_message_ignored (p : LocalParty) :
    (∀ (msg : Message) (name : String), msg.MsgType = MessageType.other name →
      p.StoreMessage msg = some (p, false, none)) ∧
    (∀ (msg : Message) (p' : LocalParty) (b : Bool) (e : Option Error),
      p.StoreMessage msg = some (p', b, e) → e = none) := by
  refine ⟨?_, fun msg p' b e h => StoreMessage_error_nil p p' msg b e h⟩
  intro msg name ht
  unfold LocalParty.StoreMessage
  simp only [ht]

theorem c22_unknown_message_ignored_witness :
    LocalParty.StoreMessage
        ⟨none, [], ⟨⟨[none, none], [none], [none, none], [none, none]⟩, [], [], [], []⟩,
          ⟨none, none, none, [], []⟩, []⟩
        ⟨⟨"a", "a", 5, []⟩, none, MessageType.other "KGRound1Message", [7]⟩
      = some (⟨none, [], ⟨⟨[none, none], [none], [none, none], [none, none]⟩, [], [], [], []⟩,
          ⟨none, none, none, [], []⟩, []⟩, false, none) :=
  (c22_unknown_message_ignored
    ⟨none, [], ⟨⟨[none, none], [none], [none, none], [none, none]⟩, [], [], [], []⟩,
      ⟨none, none, none, [], []⟩, []⟩).1
    ⟨⟨"a", "a", 5, []⟩, none, MessageType.other "KGRound1Message", [7]⟩ "KGRound1Message" rfl

/-- C23: when the party's round is not a non-nil round 1, `Start` leaves the party
unchanged, does not run the round's `Start`, and returns the error wrapped with an empty
culprit list; when the round is round 1, `Start` returns exactly the result of that round's
`Start`; and right after `NewLocalParty` the round is round 1. -/
theorem c23_start_only_in_round_one (roundStart : LocalParty → LocalParty × Option Error) :
    (∀ p : LocalParty, (¬ ∃ r, p.Round = some (Round.round1 (some r))) →
      ∃ err, p.Start roundStart = (p, some err) ∧ err.culprits = [] ∧
        err = WrapError p.Round
          "could not start. this party is in an unexpected state. use the constructor and Start()"
          []) ∧
    (∀ (p : LocalParty) (r : BaseRound), p.Round = some (Round.round1 (some r)) →
      p.Start roundStart = roundStart p) ∧
    (∀ (params : ReGroupParameters) (key : LocalPartySaveData) (out : List Message)
      (endChan : List LocalPartySaveData) (p : LocalParty),
      NewLocalParty params key out endChan = some p →
        p.Round = some (Round.round1 (some ⟨1, params.PartyID⟩)) ∧
        p.Start roundStart = roundStart p) := by
  have hstart : ∀ (p : LocalParty) (r : BaseRound), p.Round = some (Round.round1 (some r)) →
      p.Start roundStart = roundStart p := by
    intro p r hr
    unfold LocalParty.Start
    rw [hr]
  refine ⟨?_, hstart, ?_⟩
  · intro p hnot
    refine ⟨_, ?_, ?_, rfl⟩
    · unfold LocalParty.Start
      split
      · rename_i r hr
        exact absurd ⟨r, hr⟩ hnot
      · rfl
    · unfold WrapError
      split <;> rfl
  · intro params key out endChan p hnew
    have hr : p.Round = some (Round.round1 (some ⟨1, params.PartyID⟩)) := by
      unfold NewLocalParty at hnew
      split at hnew
      · simp only [Option.some.injEq] at hnew
        rw [← hnew]
        rfl
      · exact Option.noConfusion hnew
    exact ⟨hr, hstart p _ hr⟩

theorem c23_start_only_in_round_one_witness :
    (∃ err, LocalParty.Start (fun q => (q, none))
        ⟨some (Round.later ⟨2, ⟨"a", "a", 0, []⟩⟩), [],
          ⟨⟨[none], [none], [none], [none]⟩, [], [], [], []⟩, ⟨none, none, none, [], []⟩, []⟩
      = (⟨some (Round.later ⟨2, ⟨"a", "a", 0, []⟩⟩), [],
          ⟨⟨[none], [none], [none], [none]⟩, [], [], [], []⟩, ⟨none, none, none, [], []⟩, []⟩,
        some err) ∧ err.culprits = [] ∧
      err = WrapError (some (Round.later ⟨2, ⟨"a", "a", 0, []⟩⟩))
        "could not start. this party is in an unexpected state. use the constructor and Start()"
        []) ∧
    LocalParty.Start (fun q => (q, none))
        ⟨some (Round.round1 (some ⟨1, ⟨"a", "a", 0, []⟩⟩)), [],
          ⟨⟨[none], [none], [none], [none]⟩, [], [], [], []⟩, ⟨none, none, none, [], []⟩, []⟩
      = (fun q => (q, none))
        ⟨some (Round.round1 (some ⟨1, ⟨"a", "a", 0, []⟩⟩)), [],
          ⟨⟨[none], [none], [none], [none]⟩, [], [], [], []⟩, ⟨none, none, none, [], []⟩, []⟩ :=
  ⟨(c23_start_only_in_round_one (fun q => (q, none))).1 _ (fun ⟨r, hr⟩ => by cases hr),
    (c23_start_only_in_round_one (fun q => (q, none))).2.1 _ ⟨1, ⟨"a", "a", 0, []⟩⟩ rfl⟩

/-- C24 (amended): `Finish` does not touch the temp scratch data: after `Finish` every
message buffer slot and the temp fields `Di`, `NewVs`, `NewShares` and `BigXs` have the
values they had before, so the temp data is cleared afterwards exactly when it already was;
the round and the key are unchanged too. -/
theorem c24_finish_keeps_temp (p : LocalParty) :
    p.Finish.temp = p.temp ∧ (p.Finish.temp.cleared = p.temp.cleared) ∧
      p.Finish.Round = p.Round ∧ p.Finish.key = p.key :=
  ⟨rfl, rfl, rfl, rfl⟩

/-- C24 (counterexample): a party that holds one stored round-1 message and a non-empty
`Di` is not cleared after `Finish`: the message and `Di` are still there. -/
theorem c24_finish_not_zeroized_counterexample :
    (LocalParty.Finish
        ⟨none, [], ⟨⟨[some ⟨⟨"a", "a", 0, []⟩, none,
            MessageType.DGRound1OldCommitteeCommitMessage, [7]⟩, none], [none], [none, none],
            [none, none]⟩, [5], [], [], []⟩,
          ⟨some 3, none, none, [], []⟩, []⟩).temp.cleared = false ∧
    (LocalParty.Finish
        ⟨none, [], ⟨⟨[some ⟨⟨"a", "a", 0, []⟩, none,
            MessageType.DGRound1OldCommitteeCommitMessage, [7]⟩, none], [none], [none, none],
            [none, none]⟩, [5], [], [], []⟩,
          ⟨some 3, none, none, [], []⟩, []⟩).temp.Di = [5] := by
  decide

/-- C25: `Finish` sends exactly one value on the end channel, the party's key record, and
sends nothing on the outbound message channel. -/
theorem c25_finish_sends_key (p : LocalParty) :
    p.Finish.endChan = p.endChan ++ [p.key] ∧
      p.Finish.endChan.length = p.endChan.length + 1 ∧ p.Finish.Out = p.Out := by
  refine ⟨rfl, ?_, rfl⟩
  unfold LocalParty.Finish
  simp

/-- C28: for a positive modulus `N`, every non-empty coefficient list `[a_0, ..., a_k]` and
every integer `x`, `evaluatePolynomial` returns `(a_0 + a_1 x + ... + a_k x^k) mod N`, a
value in `[0, N)`. -/
theorem c28_evaluate_polynomial (E : Curve) (hN : 0 < E.N) (poly : List Int)
    (hne : poly ≠ []) (x : Int) :
    ∃ r, evaluatePolynomial E poly x = some r ∧
      r = (∑ k in Finset.range poly.length, poly.getD k 0 * x ^ k) % (E.N : Int) ∧
      0 ≤ r ∧ r < (E.N : Int) := by
  have hNpos : (0 : Int) < E.N := by exact_mod_cast hN
  exact ⟨_, evaluatePolynomial_eq E poly hne x, rfl, Int.emod_nonneg _ hNpos.ne',
    Int.emod_lt_of_pos _ hNpos⟩

theorem c28_evaluate_polynomial_witness :
    ∃ r, evaluatePolynomial toyCurve [5, 3, 100] (-4) = some r ∧
      r = (∑ k in Finset.range ([5, 3, 100] : List Int).length,
        ([5, 3, 100] : List Int).getD k 0 * (-4) ^ k) % (toyCurve.N : Int) ∧
      0 ≤ r ∧ r < (toyCurve.N : Int) :=
  c28_evaluate_polynomial toyCurve (by decide) [5, 3, 100] (by decide) (-4)

/-- C29: `Share.Verify(t, V)` returns false for every share whose `Threshold` field differs
from `t`, whatever the share's id and value and the commitments are. -/
theorem c29_verify_threshold_mismatch (E : Curve) (share : Share) (t : Int)
    (polyGs : List Point) (hne : share.Threshold ≠ t) :
    share.Verify E t polyGs = some false := by
  unfold Share.Verify
  rw [if_pos hne]

theorem c29_verify_threshold_mismatch_witness :
    Share.Verify toyCurve ⟨2, 3, 14⟩ 2 ([5, 3].map toyCurve.zsmulBase) = some true ∧
    Share.Verify toyCurve ⟨3, 3, 14⟩ 2 ([5, 3].map toyCurve.zsmulBase) = some false :=
  ⟨by decide!, c29_verify_threshold_mismatch toyCurve ⟨3, 3, 14⟩ 2
    ([5, 3].map toyCurve.zsmulBase) (by decide)⟩

/-- C30: for a prime group order and a share list with ids pairwise distinct modulo `q` in
which all shares record the same threshold, `ReConstruct` of any permutation of the list
returns the same result (value or error) as `ReConstruct` of the list. -/
theorem c30_reconstruct_order_independent (E : Curve) (hN : Nat.Prime E.N) (t : Int)
    (l l' : List Share) (hp : l.Perm l') (hth : ∀ s ∈ l, s.Threshold = t)
    (hd : l.Pairwise (fun a b => a.ID % (E.N : Int) ≠ b.ID % (E.N : Int))) :
    ReConstruct E (some l') = ReConstruct E (some l) :=
  ReConstruct_perm E hN t l l' hp hth hd

theorem c30_reconstruct_order_independent_witness :
    ReConstruct toyCurve (some [⟨2, 3, 14⟩, ⟨2, 81, 11⟩, ⟨2, 1, 8⟩])
      = ReConstruct toyCurve (some [⟨2, 1, 8⟩, ⟨2, 3, 14⟩, ⟨2, 81, 11⟩]) :=
  c30_reconstruct_order_independent toyCurve toy_lawful.prime 2
    [⟨2, 1, 8⟩, ⟨2, 3, 14⟩, ⟨2, 81, 11⟩] [⟨2, 3, 14⟩, ⟨2, 81, 11⟩, ⟨2, 1, 8⟩]
    (by decide) (by decide) (by decide)

end TssLib
